import Mathlib

/-! MemoryScanner: the driver in `memoryscanner/main.cpp`.

A shallow embedding of the driver program: the `/proc` listing (`getAllPids`), the
interactive set-up (`GetInput`, `GetInputLower`, `GetInputInt`, `set_alignment`,
`set_value_type`, `set_compare_type`), the result writer (`print_results`) and `main`.

Conventions of the embedding.

* A C++ `std::string` is a Lean `String`; a `char` is a `Char`.
* `std::cin`, as far as `operator>>` reads it, is the list of whitespace-delimited tokens
  still to come; the line obtained by `ignore` + `getline` is a separate input.
* `int` values are `Int`; the only place where the range of `int` decides anything
  (`std::stoi`) checks it explicitly.
* `res.txt` is the list of the lines written to it, one constructor of `OutLine` per
  output statement of the source. Console output (`std::cout`, `std::cerr`) is not part
  of the model.
* `scanner.h` and `system_public.h` are outside this development. What the driver
  uses from them (the `Scanner` constructor, `Scanner::find`, `sys_seek_memory`,
  `sys_read_memory`, the default `Scanner::Settings`) is a parameter of the model,
  collected in `Env`.
-/

namespace MemoryScanner

/-! ## Characters and strings -/

/-- The function `::isdigit` in the "C" locale. -/
def isdigit (c : Char) : Bool := 48 ≤ c.toNat && c.toNat ≤ 57

/-- The function `::isspace` in the "C" locale: space, `\t`, `\n`, `\v`, `\f`, `\r`. -/
def isspace (c : Char) : Bool := c.toNat == 32 || (9 ≤ c.toNat && c.toNat ≤ 13)

/-- The function `isprint` in the "C" locale: the characters `0x20 .. 0x7e`. -/
def isprint (c : Char) : Bool := 32 ≤ c.toNat && c.toNat ≤ 126

/-- The function `::tolower` in the "C" locale: `A .. Z` are mapped to `a .. z`. -/
def tolower (c : Char) : Char := c.toLower

/-- Value of a decimal digit character. -/
def digit_value (c : Char) : Nat := c.toNat - 48

/-- Largest value of `int`. -/
def INT_MAX : Int := 2147483647

/-- Smallest value of `int`. -/
def INT_MIN : Int := -2147483648

/-- Outcome of `std::stoi`: the converted value or one of its two exceptions. -/
inductive StoiResult where
  | value (v : Int)
  | invalid_argument
  | out_of_range
  deriving DecidableEq, Repr

/-- Splits an optional sign off the front of the text, as `strtol` does. -/
def stoi_sign : List Char → Bool × List Char
  | [] => (false, [])
  | c :: rest =>
    if c = '-' then (true, rest) else if c = '+' then (false, rest) else (false, c :: rest)

/-- The call `std::stoi(s)` (base 10): leading white space is skipped, an optional sign is read,
then the longest run of decimal digits is converted; whatever follows is ignored. No digit
at all throws `invalid_argument`, a value outside `int` throws `out_of_range`. -/
def stoi (s : String) : StoiResult :=
  let body := s.data.dropWhile isspace
  let signed := stoi_sign body
  let digits := signed.2.takeWhile isdigit
  if digits.isEmpty then StoiResult.invalid_argument
  else
    let magnitude : Nat := digits.foldl (fun acc c => acc * 10 + digit_value c) 0
    let v : Int := if signed.1 then -(magnitude : Int) else (magnitude : Int)
    if v < INT_MIN ∨ INT_MAX < v then StoiResult.out_of_range else StoiResult.value v

/-! ## Reading the standard input -/

/-- The function `GetInput`: `std::cin >> s`. The next token is taken off the stream; at end of input
the extraction fails and `s` stays empty. -/
def GetInput (cin : List String) : String × List String :=
  match cin with
  | [] => ("", [])
  | s :: rest => (s, rest)

/-- The call `std::transform(s.begin(), s.end(), s.begin(), ::tolower)`. -/
def lowercase (s : String) : String := String.mk (s.data.map tolower)

/-- The function `GetInputLower`: `GetInput` followed by the transformation to lower case. -/
def GetInputLower (cin : List String) : String × List String :=
  let r := GetInput cin
  (lowercase r.1, r.2)

/-- The function `GetInputInt`: `std::stoi(GetInput())`, with every exception turned into `0`. -/
def GetInputInt (cin : List String) : Int × List String :=
  let r := GetInput cin
  match stoi r.1 with
  | StoiResult.value v => (v, r.2)
  | _ => (0, r.2)

/-! ## Settings -/

/-- The enumeration `ValueType` of `scanner.h`, with the seven values the driver names. -/
inductive ValueType where
  | Int8 | Int16 | Int32 | Int64 | Float | Double | String
  deriving DecidableEq, Repr

/-- The enumeration `CompareType` of `scanner.h`, with the eight values the driver names. -/
inductive CompareType where
  | Equal | Less | Greater | Unknown | Increased | Decreased | Unchanged | Changed
  deriving DecidableEq, Repr

/-- The structure `Scanner::Settings`: the three fields the driver sets. -/
structure Settings where
  alignment : Int
  value_type : ValueType
  compare_type : CompareType
  deriving DecidableEq, Repr

/-- The function `set_alignment`: the alignment becomes whatever `GetInputInt` returns. -/
def set_alignment (settings : Settings) (cin : List String) : Settings × List String :=
  let r := GetInputInt cin
  ({ settings with alignment := r.1 }, r.2)

/-- The table `value_types` of `set_value_type`. -/
def value_types : List (String × ValueType) :=
  [("int8", ValueType.Int8), ("int16", ValueType.Int16), ("int32", ValueType.Int32),
   ("int64", ValueType.Int64), ("float", ValueType.Float), ("double", ValueType.Double),
   ("string", ValueType.String)]

/-- The table `compare_types` of `set_compare_type`. -/
def compare_types : List (String × CompareType) :=
  [("equal", CompareType.Equal), ("less", CompareType.Less), ("greater", CompareType.Greater),
   ("unknown", CompareType.Unknown), ("increased", CompareType.Increased),
   ("decreased", CompareType.Decreased), ("unchanged", CompareType.Unchanged),
   ("changed", CompareType.Changed)]

/-- The `for (;;)` loop of `set_value_type`. Each round reads one lowered token; `"!q"`
leaves the loop, a key of the table sets `value_type` and leaves the loop, anything else
starts the next round. When the input is exhausted every further read yields the empty
string, which is neither, so the loop never ends: that is the result `none`. -/
def set_value_type (settings : Settings) : List String → Option (Settings × List String)
  | [] => none
  | s :: rest =>
    let r := GetInputLower (s :: rest)
    if r.1 = "!q" then some (settings, r.2)
    else
      match value_types.lookup r.1 with
      | some v => some ({ settings with value_type := v }, r.2)
      | none => set_value_type settings rest

/-- The `for (;;)` loop of `set_compare_type`; see `set_value_type`. -/
def set_compare_type (settings : Settings) : List String → Option (Settings × List String)
  | [] => none
  | s :: rest =>
    let r := GetInputLower (s :: rest)
    if r.1 = "!q" then some (settings, r.2)
    else
      match compare_types.lookup r.1 with
      | some v => some ({ settings with compare_type := v }, r.2)
      | none => set_compare_type settings rest

/-! ## Listing the processes -/

/-- The `d_type` of a directory entry. -/
inductive DType where
  | DT_DIR | DT_REG | DT_LNK | DT_UNKNOWN
  deriving DecidableEq, Repr

/-- A `struct dirent`, reduced to the two fields `getAllPids` reads. -/
structure dirent where
  d_type : DType
  d_name : String
  deriving DecidableEq, Repr

/-- The `while (readdir ...)` loop of `getAllPids`: the entries still to come and the
vector `pids` built so far. -/
def getAllPids_loop : List dirent → List Int → List Int
  | [], pids => pids
  | entry :: rest, pids =>
    if entry.d_type = DType.DT_DIR then
      let name := entry.d_name
      let is_pid_dir := !name.data.isEmpty && name.data.all isdigit
      if is_pid_dir then
        match stoi name with
        | StoiResult.value v => getAllPids_loop rest (pids ++ [v])
        | _ => getAllPids_loop rest pids
      else getAllPids_loop rest pids
    else getAllPids_loop rest pids

/-- The function `getAllPids`. The argument is what `opendir("/proc")` and `readdir` deliver: `none`
when the directory cannot be opened, otherwise its entries in reading order. `std::sort`
is an ascending sort of the vector. -/
def getAllPids (proc_dir : Option (List dirent)) : List Int :=
  match proc_dir with
  | none => []
  | some entries => (getAllPids_loop entries []).insertionSort (· ≤ ·)

/-- The function `getProcessNameByPid`. The argument `comm` is the file system: for a pid,
`none` when `/proc/<pid>/comm` cannot be opened, otherwise what `std::getline` extracts
from it. A trailing newline, should there be one, is removed. -/
def getProcessNameByPid (comm : Int → Option String) (pid : Int) : String :=
  match comm pid with
  | none => ""
  | some name =>
    if !name.data.isEmpty && name.data.getLast? = some '\n' then String.mk name.data.dropLast
    else name

/-! ## Matches, the results file, the memory of the target -/

/-- The value union of a match, one field per member the driver prints. The two floating
point members are kept as their bit patterns. -/
structure Value where
  int8 : Int
  int16 : Int
  int32 : Int
  int64 : Int
  float_value : Nat
  double_value : Nat
  deriving DecidableEq, Repr

/-- An element of `scanner.get_results()`: an address and the value found there. -/
structure Match where
  address : Nat
  value : Value
  deriving DecidableEq, Repr

/-- What the `switch` on `value_type` in `print_results` sends to the stream. -/
inductive ValueField where
  | int8 (v : Int)
  | int16 (v : Int)
  | int32 (v : Int)
  | int64 (v : Int)
  | float_value (bits : Nat)
  | double_value (bits : Nat)
  | string_search_result
  deriving DecidableEq, Repr

/-- The `switch (scanner.settings.value_type)` of `print_results`. -/
def value_field (value_type : ValueType) (value : Value) : ValueField :=
  match value_type with
  | ValueType.Int8 => ValueField.int8 value.int8
  | ValueType.Int16 => ValueField.int16 value.int16
  | ValueType.Int32 => ValueField.int32 value.int32
  | ValueType.Int64 => ValueField.int64 value.int64
  | ValueType.Float => ValueField.float_value value.float_value
  | ValueType.Double => ValueField.double_value value.double_value
  | ValueType.String => ValueField.string_search_result

/-- The lines of `res.txt`, one constructor per output statement of the source. -/
inductive OutLine where
  /-- The line `Memory Scan Results - <time>` -/
  | title (now : Nat)
  /-- The line `===========================================` -/
  | rule
  /-- An empty line. -/
  | blank
  /-- The line `PID: <pid> (Name: <name>)` -/
  | pid_header (pid : Int) (name : String)
  /-- The line `<address> : <value> | Content: "<content>"` -/
  | result (address : Nat) (value : ValueField) (content : List Char)
  /-- The line `(Showing first <n> successfully read results for this PID)` -/
  | limit_notice (count_limit : Int)
  /-- The line `-------------------------------------------` -/
  | separator
  /-- The line `No matching content found in this scan run.` -/
  | no_match
  /-- The line `Scan finished.` -/
  | finished
  deriving DecidableEq, Repr

/-- Address of a result line; `none` for every other line. -/
def OutLine.result_address : OutLine → Option Nat
  | OutLine.result address _ _ => some address
  | _ => none

/-- The addresses of the result lines of a stream, in the order they were written. -/
def result_addresses (out : List OutLine) : List Nat := out.filterMap OutLine.result_address

/-- The exceptions of the `Scanner` constructor and of `find`, under the names the
specification gives them; `other` is any further exception. All of them are taken to
derive from `std::exception`, so that one of the two `catch` clauses of `main` catches
them. -/
inductive ScanError where
  | InvalidSettingsError
  | ParseError
  | AttachError
  | InvalidStateError
  | UnsupportedComparisonError
  | other (what : String)
  deriving DecidableEq, Repr

/-- Calls the driver makes into `scanner.h` and `system_public.h`, and the prompt for the
value to scan for. -/
inductive Event where
  | value_prompt
  | construct (pid : Int)
  | find (pid : Int) (settings : Settings) (target_text : String)
  | seek (pid : Int) (address : Nat)
  | read (pid : Int) (address : Nat) (bytes_to_read : Nat)
  deriving DecidableEq, Repr

/-- Ways in which a run has no defined result. -/
inductive Fault where
  /-- A prompt loop reads past the end of the input and never ends. -/
  | input_exhausted
  /-- An access to `mem_buffer` outside its 65 elements. -/
  | buffer_overrun
  deriving DecidableEq, Repr

/-- The array `char mem_buffer[65]`. -/
abbrev Buffer := Fin 65 → Char

/-- The store `mem_buffer[i] = c`; `none` when `i` is not an index of the array. -/
def Buffer.store (b : Buffer) (i : Nat) (c : Char) : Option Buffer :=
  if h : i < 65 then some (Function.update b ⟨i, h⟩ c) else none

/-- The load `mem_buffer[i]`; `none` when `i` is not an index of the array. -/
def Buffer.load (b : Buffer) (i : Nat) : Option Char :=
  if h : i < 65 then some (b ⟨i, h⟩) else none

/-- What one call of `sys_read_memory` leaves behind: its return value, `bytes_read` and
the buffer. -/
structure ReadOutcome where
  ok : Bool
  bytes_read : Nat
  mem_buffer : Buffer

/-- The memory of the attached process as `system_public.h` gives access to it. -/
structure Memory where
  sys_seek_memory : Nat → Bool
  sys_read_memory : Nat → Nat → ReadOutcome

/-- The number of bytes `print_results` asks for. -/
def bytes_to_read : Nat := 64

/-- Lines 87 to 99 of `print_results`: seek, read and, when at least one byte was read, the
store of the terminator at index `bytes_read`. The result is the buffer and `bytes_read`
when `content_successfully_read` is set, together with the calls made. -/
def read_content (mem : Memory) (pid : Int) (address : Nat) :
    Except Fault (Option (Buffer × Nat) × List Event) :=
  if mem.sys_seek_memory address then
    let r := mem.sys_read_memory address bytes_to_read
    let calls := [Event.seek pid address, Event.read pid address bytes_to_read]
    if r.ok then
      if 0 < r.bytes_read then
        match r.mem_buffer.store r.bytes_read '\x00' with
        | some b => Except.ok (some (b, r.bytes_read), calls)
        | none => Except.error Fault.buffer_overrun
      else Except.ok (none, calls)
    else Except.ok (none, calls)
  else Except.ok (none, [Event.seek pid address])

/-- The loop `for (size_t j = 0; j < bytes_read; ++j)` that writes the content field, from
index `j` with `remaining = bytes_read - j` rounds to go. -/
def write_content (b : Buffer) : Nat → Nat → Option (List Char)
  | _, 0 => some []
  | j, remaining + 1 =>
    match b.load j with
    | none => none
    | some c =>
      match write_content b (j + 1) remaining with
      | none => none
      | some rest => some ((if isprint c then c else '.') :: rest)

/-- The local state of `print_results` that the loop over the results changes. -/
structure PrintState where
  out_stream : List OutLine
  wrote_pid_header : Bool
  results_written_count : Int
  calls : List Event
  deriving DecidableEq, Repr

/-- The loop `for (const auto& adr : results)` of `print_results`. -/
def print_results_loop (mem : Memory) (value_type : ValueType) (count_limit : Int)
    (current_pid : Int) (process_name : String) :
    List Match → PrintState → Except Fault PrintState
  | [], st => Except.ok st
  | adr :: rest, st =>
    match read_content mem current_pid adr.address with
    | Except.error f => Except.error f
    | Except.ok (none, calls) =>
      print_results_loop mem value_type count_limit current_pid process_name rest
        { st with calls := st.calls ++ calls }
    | Except.ok (some (mem_buffer, bytes_read), calls) =>
      match write_content mem_buffer 0 bytes_read with
      | none => Except.error Fault.buffer_overrun
      | some content =>
        let header :=
          if st.wrote_pid_header then []
          else [OutLine.pid_header current_pid
                  (if process_name = "" then "[unknown]" else process_name)]
        let line := OutLine.result adr.address (value_field value_type adr.value) content
        let results_written_count := st.results_written_count + 1
        if count_limit ≠ 0 ∧ count_limit ≤ results_written_count then
          Except.ok
            { out_stream := st.out_stream ++ header ++ [line, OutLine.limit_notice count_limit]
              wrote_pid_header := true
              results_written_count := results_written_count
              calls := st.calls ++ calls }
        else
          print_results_loop mem value_type count_limit current_pid process_name rest
            { out_stream := st.out_stream ++ header ++ [line]
              wrote_pid_header := true
              results_written_count := results_written_count
              calls := st.calls ++ calls }

/-- A `Scanner` as far as the driver sees it. -/
structure Scanner where
  process_id : Int
  settings : Settings
  results : List Match
  deriving DecidableEq, Repr

/-- What `print_results` leaves behind: the stream, its return value, the count it reports
on the console and the memory calls it made. -/
structure PrintOutcome where
  out_stream : List OutLine
  returned : Bool
  results_written_count : Int
  calls : List Event
  deriving DecidableEq, Repr

/-- The function `print_results`. In the source `results_written_count` is an `int`; it is
compared with `count_limit` only when `count_limit` is not `0`, and then the loop is left
before the count passes `max 1 count_limit`, so its range plays no part. -/
def print_results (mem : Memory) (scanner : Scanner) (count_limit : Int)
    (out_stream : List OutLine) (current_pid : Int) (process_name : String) :
    Except Fault PrintOutcome :=
  match print_results_loop mem scanner.settings.value_type count_limit current_pid
      process_name scanner.results
      { out_stream := out_stream, wrote_pid_header := false, results_written_count := 0,
        calls := [] } with
  | Except.error f => Except.error f
  | Except.ok st =>
    Except.ok
      { out_stream := st.out_stream ++ (if st.wrote_pid_header then [OutLine.separator] else [])
        returned := st.wrote_pid_header
        results_written_count := st.results_written_count
        calls := st.calls }

/-! ## The driver -/

/-- Everything `main` takes from outside `main.cpp`. -/
structure Env where
  /-- The value of a default-constructed `Scanner::Settings`. -/
  default_settings : Settings
  /-- For a pid, what `std::getline` reads from `/proc/<pid>/comm`, if it can be opened. -/
  comm : Int → Option String
  /-- The constructor `Scanner{pid}`: the exception it throws, if any. -/
  construct : Int → Option ScanError
  /-- The call `scanner.find(text)` on a newly constructed scanner for the pid that carries
  the settings: the exception it throws or the result set it leaves in the scanner. -/
  find : Int → Settings → String → Except ScanError (List Match)
  /-- The memory of the process a scanner for the pid is attached to. -/
  memory : Int → Memory

/-- The construction `Scanner scanner` from `static_cast<size_t>(pid)`. -/
def Scanner.construct (env : Env) (pid : Int) : Except ScanError Scanner :=
  match env.construct pid with
  | some e => Except.error e
  | none => Except.ok { process_id := pid, settings := env.default_settings, results := [] }

/-- The call `scanner.find(target_text)`. -/
def Scanner.find (env : Env) (scanner : Scanner) (target_text : String) :
    Except ScanError Scanner :=
  match env.find scanner.process_id scanner.settings target_text with
  | Except.error e => Except.error e
  | Except.ok results => Except.ok { scanner with results := results }

/-- The test of lines 234 to 238 of `main`: the compare type is none of `Unknown`,
`Increased`, `Decreased`, `Unchanged`, `Changed`. -/
def wants_value (compare_type : CompareType) : Bool :=
  compare_type != CompareType.Unknown &&
  compare_type != CompareType.Increased &&
  compare_type != CompareType.Decreased &&
  compare_type != CompareType.Unchanged &&
  compare_type != CompareType.Changed

/-- The argument of `scanner.find` chosen in lines 259 to 263 of `main`. -/
def find_argument (compare_type : CompareType) (scan_value_str : String) : String :=
  if compare_type = CompareType.Unknown then "" else scan_value_str

/-- The state of `main` that the loop over the pids changes. -/
structure MainState where
  outfile : List OutLine
  any_match_found_in_run : Bool
  calls : List Event
  deriving DecidableEq, Repr

/-- The body of the loop `for (pid_t pid : all_pids)` of `main`. An exception of the
constructor or of `find` is caught by one of the two `catch` clauses, which write to
`std::cerr` only. -/
def scan_pid (env : Env) (common_scan_settings : Settings) (scan_value_str : String)
    (pid : Int) (st : MainState) : Except Fault MainState :=
  let proc_name := getProcessNameByPid env.comm pid
  match Scanner.construct env pid with
  | Except.error _ => Except.ok { st with calls := st.calls ++ [Event.construct pid] }
  | Except.ok scanner0 =>
    let scanner := { scanner0 with settings := common_scan_settings }
    let target_text := find_argument common_scan_settings.compare_type scan_value_str
    let calls := [Event.construct pid, Event.find pid scanner.settings target_text]
    match Scanner.find env scanner target_text with
    | Except.error _ => Except.ok { st with calls := st.calls ++ calls }
    | Except.ok scanner =>
      match print_results (env.memory pid) scanner 0 st.outfile pid proc_name with
      | Except.error f => Except.error f
      | Except.ok r =>
        Except.ok
          { outfile := r.out_stream
            any_match_found_in_run := st.any_match_found_in_run || r.returned
            calls := st.calls ++ calls ++ r.calls }

/-- The loop `for (pid_t pid : all_pids)` of `main`. -/
def main_loop (env : Env) (common_scan_settings : Settings) (scan_value_str : String) :
    List Int → MainState → Except Fault MainState
  | [], st => Except.ok st
  | pid :: rest, st =>
    match scan_pid env common_scan_settings scan_value_str pid st with
    | Except.error f => Except.error f
    | Except.ok st1 => main_loop env common_scan_settings scan_value_str rest st1

/-- Lines 226 to 231 of `main`: the three prompts, in order, starting from the default
settings. `none` when one of the two prompt loops never ends. -/
def setup (default_settings : Settings) (cin : List String) : Option (Settings × List String) :=
  let r := set_alignment default_settings cin
  match set_value_type r.1 r.2 with
  | none => none
  | some r1 => set_compare_type r1.1 r1.2

/-- What a run of `main` takes from its surroundings. -/
structure Input where
  /-- Whether `res.txt` could be opened for writing. -/
  outfile_is_open : Bool
  /-- The value of `time(0)`. -/
  now : Nat
  /-- The listing of `/proc`, see `getAllPids`. -/
  proc_dir : Option (List dirent)
  /-- The tokens that `operator>>` extracts from `std::cin`. -/
  cin : List String
  /-- The line that `ignore` followed by `getline` delivers after the prompts. -/
  value_line : String
  deriving DecidableEq, Repr

/-- What a run of `main` leaves behind. -/
structure RunResult where
  exit_code : Int
  outfile : List OutLine
  calls : List Event
  deriving DecidableEq, Repr

/-- The part of `main` that follows `getAllPids()`, for a given vector `all_pids`. -/
def main_with_pids (env : Env) (input : Input) (all_pids : List Int) : Except Fault RunResult :=
  match setup env.default_settings input.cin with
  | none => Except.error Fault.input_exhausted
  | some (common_scan_settings, _) =>
    let prompted := wants_value common_scan_settings.compare_type
    let scan_value_str := if prompted then input.value_line else ""
    match main_loop env common_scan_settings scan_value_str all_pids
        { outfile := [OutLine.title input.now, OutLine.rule, OutLine.blank]
          any_match_found_in_run := false
          calls := if prompted then [Event.value_prompt] else [] } with
    | Except.error f => Except.error f
    | Except.ok st =>
      Except.ok
        { exit_code := 0
          outfile := st.outfile ++ (if st.any_match_found_in_run then [] else [OutLine.no_match])
            ++ [OutLine.blank, OutLine.rule, OutLine.finished]
          calls := st.calls }

/-- The function `main`. -/
def main (env : Env) (input : Input) : Except Fault RunResult :=
  if input.outfile_is_open then main_with_pids env input (getAllPids input.proc_dir)
  else Except.ok { exit_code := 1, outfile := [], calls := [] }

/-! ## The scanner of the specification -/

/-- Whether the compare type is one of the relative ones. -/
def is_relative (compare_type : CompareType) : Bool :=
  compare_type = CompareType.Increased || compare_type = CompareType.Decreased ||
  compare_type = CompareType.Unchanged || compare_type = CompareType.Changed

/-- Whether the compare type is one of the absolute ones. -/
def is_absolute (compare_type : CompareType) : Bool :=
  compare_type = CompareType.Equal || compare_type = CompareType.Less ||
  compare_type = CompareType.Greater

/-- Modelled from the spec: `Scanner::find` of `scanner.h`, on a scanner on which no sweep
has run yet. String combined with Less or Greater fails with `UnsupportedComparisonError`,
an alignment below 1 with `InvalidSettingsError`, a relative compare type with
`InvalidStateError` (there is no baseline), an absolute compare type whose target text
does not parse with `ParseError`; all of this before memory is touched. Otherwise the
sweep runs. The text parser `parses` and the sweep `sweep` are parameters. The order of
the four checks is not fixed by the specification; the comparison check is first, as its
statement carries no condition on the other settings. -/
def spec_find (parses : ValueType → String → Bool)
    (sweep : Int → Settings → String → List Match)
    (pid : Int) (settings : Settings) (target_text : String) : Except ScanError (List Match) :=
  if settings.value_type = ValueType.String ∧
      (settings.compare_type = CompareType.Less ∨ settings.compare_type = CompareType.Greater) then
    Except.error ScanError.UnsupportedComparisonError
  else if settings.alignment < 1 then Except.error ScanError.InvalidSettingsError
  else if is_relative settings.compare_type then Except.error ScanError.InvalidStateError
  else if is_absolute settings.compare_type && !parses settings.value_type target_text then
    Except.error ScanError.ParseError
  else Except.ok (sweep pid settings target_text)

/-! ## Notions used to state the properties -/

/-- The character the content loop writes for a byte of the buffer. -/
def shown (c : Char) : Char := if isprint c then c else '.'

/-- The byte of the buffer at index `j`; outside the array the value is of no account. -/
def Buffer.at (b : Buffer) (j : Nat) : Char := if h : j < 65 then b ⟨j, h⟩ else '.'

/-- The content field for a buffer of which the first `n` bytes were read. -/
def content_of (b : Buffer) (n : Nat) : List Char := (List.range' 0 n).map fun j => shown (b.at j)

/-- The match can be read: the seek succeeds, the read succeeds, and at least one byte
is returned. -/
def readable (mem : Memory) (adr : Match) : Bool :=
  mem.sys_seek_memory adr.address &&
  ((mem.sys_read_memory adr.address bytes_to_read).ok &&
    decide (0 < (mem.sys_read_memory adr.address bytes_to_read).bytes_read))

/-- The contract of `sys_read_memory` for the request `print_results` makes: no more bytes
are reported than were asked for. -/
def Memory.reads_bounded (mem : Memory) : Prop :=
  ∀ address, (mem.sys_read_memory address bytes_to_read).bytes_read ≤ bytes_to_read

/-- The reads of `print_results` for the readable matches of a result set report no more
bytes than were asked for. -/
def reads_fit (mem : Memory) (results : List Match) : Prop :=
  ∀ adr ∈ results, readable mem adr = true →
    (mem.sys_read_memory adr.address bytes_to_read).bytes_read ≤ bytes_to_read

/-- The result line `print_results` writes for a readable match. -/
def result_line (mem : Memory) (value_type : ValueType) (adr : Match) : OutLine :=
  OutLine.result adr.address (value_field value_type adr.value)
    (content_of (mem.sys_read_memory adr.address bytes_to_read).mem_buffer
      (mem.sys_read_memory adr.address bytes_to_read).bytes_read)

/-- The memory calls `print_results` makes for one match. -/
def access_calls (mem : Memory) (pid : Int) (adr : Match) : List Event :=
  if mem.sys_seek_memory adr.address then
    [Event.seek pid adr.address, Event.read pid adr.address bytes_to_read]
  else [Event.seek pid adr.address]

/-- The header line of a pid, as `print_results` writes it. -/
def header_line (current_pid : Int) (process_name : String) : OutLine :=
  OutLine.pid_header current_pid (if process_name = "" then "[unknown]" else process_name)

/-- The number of result lines `print_results` may still write when `count_limit` is not
`0` and `results_written_count` lines are written: the loop is left as soon as the count
reaches `count_limit`, and not before one more line is written. -/
def quota (count_limit results_written_count : Int) : Nat :=
  (max 1 (count_limit - results_written_count)).toNat

/-- The addresses of the `sys_seek_memory` calls of a log, in order. -/
def sought (calls : List Event) : List Nat :=
  calls.filterMap fun e => match e with
    | Event.seek _ address => some address
    | _ => none

/-- The addresses of the `sys_read_memory` calls of a log, in order. -/
def read_at (calls : List Event) : List Nat :=
  calls.filterMap fun e => match e with
    | Event.read _ address _ => some address
    | _ => none

/-- The lines `print_results` adds for a pid when `count_limit` is `0`: nothing when no
match is readable, otherwise the header, one result line per readable match and the
separator. -/
def pid_block (mem : Memory) (value_type : ValueType) (pid : Int) (name : String)
    (results : List Match) : List OutLine :=
  if (results.filter (readable mem)).isEmpty then []
  else header_line pid name :: (results.filter (readable mem)).map (result_line mem value_type)
    ++ [OutLine.separator]

/-- The number of result lines `count_limit` allows when `r` matches are readable: all of
them for `0`, the first `count_limit` for a positive limit, one for a negative limit. -/
def lines_allowed (count_limit : Int) (r : Nat) : Nat :=
  if count_limit = 0 then r else if 0 < count_limit then min count_limit.toNat r else min 1 r

/-- The number a string of decimal digits denotes. -/
def decimal_value (name : String) : Nat := Nat.ofDigits 10 (name.data.reverse.map digit_value)

/-- The entry is a directory whose name is not empty, consists of decimal digits only and
denotes a number that fits in `int`. -/
def is_pid_entry (entry : dirent) : Bool :=
  decide (entry.d_type = DType.DT_DIR) && !entry.d_name.data.isEmpty &&
    entry.d_name.data.all isdigit && decide ((decimal_value entry.d_name : Int) ≤ INT_MAX)

/-- The name of a value type, as the specification writes it. -/
def value_type_name : ValueType → String
  | ValueType.Int8 => "Int8"
  | ValueType.Int16 => "Int16"
  | ValueType.Int32 => "Int32"
  | ValueType.Int64 => "Int64"
  | ValueType.Float => "Float"
  | ValueType.Double => "Double"
  | ValueType.String => "String"

/-- The name of a compare type, as the specification writes it. -/
def compare_type_name : CompareType → String
  | CompareType.Equal => "Equal"
  | CompareType.Less => "Less"
  | CompareType.Greater => "Greater"
  | CompareType.Unknown => "Unknown"
  | CompareType.Increased => "Increased"
  | CompareType.Decreased => "Decreased"
  | CompareType.Unchanged => "Unchanged"
  | CompareType.Changed => "Changed"

/-- The token ends the prompt for the value type: without regard to case it is `!q` or
the name of a value type. -/
def ends_value_type_prompt (token : String) : Prop :=
  lowercase token = "!q" ∨ ∃ v : ValueType, lowercase (value_type_name v) = lowercase token

/-- The token ends the prompt for the compare type: without regard to case it is `!q` or
the name of a compare type. -/
def ends_compare_type_prompt (token : String) : Prop :=
  lowercase token = "!q" ∨ ∃ v : CompareType, lowercase (compare_type_name v) = lowercase token

/-- The result set the scan of a pid leaves behind; `none` when the constructor or `find`
throws. -/
def scan_results (env : Env) (settings : Settings) (scan_value_str : String) (pid : Int) :
    Option (List Match) :=
  match env.construct pid with
  | some _ => none
  | none =>
    match env.find pid settings (find_argument settings.compare_type scan_value_str) with
    | Except.error _ => none
    | Except.ok results => some results

/-- The lines the scan of a pid adds to `res.txt`. -/
def pid_lines (env : Env) (settings : Settings) (scan_value_str : String) (pid : Int) :
    List OutLine :=
  match scan_results env settings scan_value_str pid with
  | none => []
  | some results =>
    pid_block (env.memory pid) settings.value_type pid (getProcessNameByPid env.comm pid) results

/-- The calls the scan of a pid makes. -/
def pid_calls (env : Env) (settings : Settings) (scan_value_str : String) (pid : Int) :
    List Event :=
  match env.construct pid with
  | some _ => [Event.construct pid]
  | none =>
    [Event.construct pid,
      Event.find pid settings (find_argument settings.compare_type scan_value_str)] ++
    match scan_results env settings scan_value_str pid with
    | none => []
    | some results => (results.map (access_calls (env.memory pid) pid)).flatten

/-- The reads of `print_results` report no more bytes than were asked for, for every
readable match of every result set that the scan of one of the pids leaves behind. -/
def reads_within_request (env : Env) (settings : Settings) (scan_value_str : String)
    (pids : List Int) : Prop :=
  ∀ pid ∈ pids, ∀ results, scan_results env settings scan_value_str pid = some results →
    reads_fit (env.memory pid) results

/-- The contract of `sys_read_memory` holds for the memory of every process. -/
def Env.reads_bounded (env : Env) : Prop := ∀ pid, (env.memory pid).reads_bounded

/-- The value `scan_value_str` has when the loop over the pids starts. -/
def scan_value (settings : Settings) (value_line : String) : String :=
  if wants_value settings.compare_type then value_line else ""

/-! ## Sample data -/

/-- A buffer that holds `Hi`, a control character and then zero bytes. -/
def sample_buffer : Buffer := fun i =>
  if i.val = 0 then 'H' else if i.val = 1 then 'i' else if i.val = 2 then '\x07' else '\x00'

/-- A memory in which even addresses can be sought; the read fails at address 4, returns
no byte at address 6 and three bytes everywhere else. -/
def sample_memory : Memory where
  sys_seek_memory := fun address => address % 2 == 0
  sys_read_memory := fun address _ =>
    { ok := address != 4, bytes_read := if address = 6 then 0 else 3, mem_buffer := sample_buffer }

/-- A value whose members hold 1 to 6. -/
def sample_value : Value :=
  { int8 := 1, int16 := 2, int32 := 3, int64 := 4, float_value := 5, double_value := 6 }

/-- Matches at the addresses 0, 1, 2, 4, 6 and 8. -/
def sample_results : List Match :=
  [0, 1, 2, 4, 6, 8].map fun address => { address := address, value := sample_value }

/-- A scanner for pid 1 that holds `sample_results`. -/
def sample_scanner : Scanner where
  process_id := 1
  settings := { alignment := 4, value_type := ValueType.Int32, compare_type := CompareType.Equal }
  results := sample_results

/-- Settings with alignment 4, `Int32` and `Equal`. -/
def sample_settings : Settings :=
  { alignment := 4, value_type := ValueType.Int32, compare_type := CompareType.Equal }

/-- An environment with default settings `1`, `Int8`, `Unknown`, in which the constructor
throws for pid 3, `find` throws for pid 2 and leaves `sample_results` otherwise, and every
process has the memory `sample_memory`. -/
def sample_env : Env where
  default_settings :=
    { alignment := 1, value_type := ValueType.Int8, compare_type := CompareType.Unknown }
  comm := fun pid => if pid = 1 then some "init" else none
  construct := fun pid => if pid = 3 then some ScanError.AttachError else none
  find := fun pid _ _ =>
    if pid = 2 then Except.error ScanError.ParseError else Except.ok sample_results
  memory := fun _ => sample_memory

/-- A listing of `/proc` with the pid directories 5, 3, 1 and 2 among other entries. -/
def sample_listing : List dirent :=
  [{ d_type := DType.DT_DIR, d_name := "5" }, { d_type := DType.DT_DIR, d_name := "3" },
   { d_type := DType.DT_REG, d_name := "7" }, { d_type := DType.DT_DIR, d_name := "self" },
   { d_type := DType.DT_DIR, d_name := "1" }, { d_type := DType.DT_DIR, d_name := "2" }]

/-- A run in which the user enters `4`, `int32`, `equal` and the value `100`. -/
def sample_input : Input where
  outfile_is_open := true
  now := 0
  proc_dir := some sample_listing
  cin := ["4", "int32", "equal"]
  value_line := "100"

/-- A run over the single process 1 in which the user enters `abc` at the alignment
prompt, then `int32` and `unknown`. -/
def zero_alignment_input : Input where
  outfile_is_open := true
  now := 0
  proc_dir := some [{ d_type := DType.DT_DIR, d_name := "1" }]
  cin := ["abc", "int32", "unknown"]
  value_line := ""

/-- The environment `sample_env` with the scanner of the specification: every text parses
and the sweep leaves `sample_results`. -/
def spec_env : Env :=
  { sample_env with find := spec_find (fun _ _ => true) (fun _ _ _ => sample_results) }

/-- A run in which the user enters `1`, `string`, `less` and the value `abc`. -/
def string_less_input : Input :=
  { sample_input with cin := ["1", "string", "less"], value_line := "abc" }

/-- The memory calls of `print_results` on `sample_results` for the pid. -/
def sample_accesses (pid : Int) : List Event :=
  [Event.seek pid 0, Event.read pid 0 64, Event.seek pid 1, Event.seek pid 2,
   Event.read pid 2 64, Event.seek pid 4, Event.read pid 4 64, Event.seek pid 6,
   Event.read pid 6 64, Event.seek pid 8, Event.read pid 8 64]

/-- The three result lines written for `sample_results`. -/
def sample_lines : List OutLine :=
  [OutLine.result 0 (ValueField.int32 3) ['H', 'i', '.'],
   OutLine.result 2 (ValueField.int32 3) ['H', 'i', '.'],
   OutLine.result 8 (ValueField.int32 3) ['H', 'i', '.']]

/-- What the run `sample_input` leaves behind in `sample_env`. -/
def sample_run : RunResult where
  exit_code := 0
  outfile := [OutLine.title 0, OutLine.rule, OutLine.blank, OutLine.pid_header 1 "init"]
    ++ sample_lines ++ [OutLine.separator, OutLine.pid_header 5 "[unknown]"] ++ sample_lines
    ++ [OutLine.separator, OutLine.blank, OutLine.rule, OutLine.finished]
  calls := [Event.value_prompt, Event.construct 1, Event.find 1 sample_settings "100"]
    ++ sample_accesses 1
    ++ [Event.construct 2, Event.find 2 sample_settings "100", Event.construct 3,
        Event.construct 5, Event.find 5 sample_settings "100"]
    ++ sample_accesses 5

/-- What the run `string_less_input` leaves behind in `spec_env`. -/
def string_less_run : RunResult where
  exit_code := 0
  outfile := [OutLine.title 0, OutLine.rule, OutLine.blank, OutLine.no_match, OutLine.blank,
    OutLine.rule, OutLine.finished]
  calls := [Event.value_prompt, Event.construct 1,
    Event.find 1
      { alignment := 1, value_type := ValueType.String, compare_type := CompareType.Less } "abc",
    Event.construct 2,
    Event.find 2
      { alignment := 1, value_type := ValueType.String, compare_type := CompareType.Less } "abc",
    Event.construct 3, Event.construct 5,
    Event.find 5
      { alignment := 1, value_type := ValueType.String, compare_type := CompareType.Less } "abc"]

/-- What the run `zero_alignment_input` leaves behind in `sample_env`. -/
def zero_alignment_run : RunResult where
  exit_code := 0
  outfile := [OutLine.title 0, OutLine.rule, OutLine.blank, OutLine.pid_header 1 "init"]
    ++ sample_lines ++ [OutLine.separator, OutLine.blank, OutLine.rule, OutLine.finished]
  calls := [Event.construct 1,
      Event.find 1
        { alignment := 0, value_type := ValueType.Int32, compare_type := CompareType.Unknown } ""]
    ++ sample_accesses 1

/-! ## Properties of `print_results` -/

theorem Buffer.load_eq (b : Buffer) (j : Nat) (h : j < 65) : b.load j = some (b.at j) := by
  simp [Buffer.load, Buffer.at, h]

theorem write_content_eq (b : Buffer) (k : Nat) :
    ∀ j, j + k ≤ 65 → write_content b j k = some ((List.range' j k).map fun i => shown (b.at i)) := by
  induction k with
  | zero => intro j _; simp [write_content]
  | succ k ih =>
    intro j hj
    have hlt : j < 65 := by omega
    have hrest := ih (j + 1) (by omega)
    simp [write_content, Buffer.load_eq b j hlt, hrest, List.range'_succ, shown]

theorem Buffer.store_eq (b : Buffer) (n : Nat) (c : Char) (h : n < 65) :
    b.store n c = some (Function.update b ⟨n, h⟩ c) := by
  simp [Buffer.store, h]

theorem Buffer.at_update (b : Buffer) (n : Nat) (c : Char) (h : n < 65) (j : Nat) (hj : j < n) :
    Buffer.at (Function.update b ⟨n, h⟩ c) j = b.at j := by
  have hj65 : j < 65 := by omega
  have hne : (⟨j, hj65⟩ : Fin 65) ≠ ⟨n, h⟩ := by
    intro heq
    have := congrArg Fin.val heq
    simp at this
    omega
  simp [Buffer.at, hj65, Function.update_noteq hne]

theorem content_of_update (b : Buffer) (n : Nat) (c : Char) (h : n < 65) :
    content_of (Function.update b ⟨n, h⟩ c) n = content_of b n := by
  unfold content_of
  apply List.map_congr_left
  intro j hj
  have hjn : j < n := by
    have := (List.mem_range'_1.mp hj).2
    omega
  rw [Buffer.at_update b n c h j hjn]

theorem read_content_unreadable (mem : Memory) (pid : Int) (adr : Match)
    (hr : readable mem adr = false) :
    read_content mem pid adr.address = Except.ok (none, access_calls mem pid adr) := by
  unfold readable at hr
  unfold read_content access_calls
  by_cases hs : mem.sys_seek_memory adr.address = true
  · by_cases hk : (mem.sys_read_memory adr.address bytes_to_read).ok = true
    · have hz : ¬ 0 < (mem.sys_read_memory adr.address bytes_to_read).bytes_read := by
        simpa [hs, hk] using hr
      simp [hs, hk, hz]
    · simp [hs, hk]
  · simp [hs]

theorem read_content_readable (mem : Memory) (pid : Int) (adr : Match)
    (hb : (mem.sys_read_memory adr.address bytes_to_read).bytes_read ≤ bytes_to_read)
    (hr : readable mem adr = true) :
    ∃ b, read_content mem pid adr.address =
        Except.ok (some (b, (mem.sys_read_memory adr.address bytes_to_read).bytes_read),
          access_calls mem pid adr) ∧
      write_content b 0 (mem.sys_read_memory adr.address bytes_to_read).bytes_read =
        some (content_of (mem.sys_read_memory adr.address bytes_to_read).mem_buffer
          (mem.sys_read_memory adr.address bytes_to_read).bytes_read) := by
  unfold readable at hr
  simp only [Bool.and_eq_true, decide_eq_true_eq] at hr
  obtain ⟨hs, hk, hz⟩ := hr
  have h65 : (mem.sys_read_memory adr.address bytes_to_read).bytes_read < 65 := by
    unfold bytes_to_read at hb ⊢
    omega
  refine ⟨Function.update (mem.sys_read_memory adr.address bytes_to_read).mem_buffer
    ⟨_, h65⟩ '\x00', ?_, ?_⟩
  · unfold read_content access_calls
    simp [hs, hk, hz, Buffer.store_eq _ _ _ h65]
  · rw [write_content_eq _ _ 0 (by omega), ← content_of_update _ _ '\x00' h65]
    rfl

theorem print_results_loop_unreadable (mem : Memory) (value_type : ValueType)
    (count_limit : Int) (pid : Int) (name : String) (adr : Match) (rest : List Match)
    (st : PrintState) (hr : readable mem adr = false) :
    print_results_loop mem value_type count_limit pid name (adr :: rest) st =
      print_results_loop mem value_type count_limit pid name rest
        { st with calls := st.calls ++ access_calls mem pid adr } := by
  rw [print_results_loop, read_content_unreadable mem pid adr hr]

theorem print_results_loop_readable (mem : Memory) (value_type : ValueType)
    (count_limit : Int) (pid : Int) (name : String) (adr : Match) (rest : List Match)
    (st : PrintState)
    (hb : (mem.sys_read_memory adr.address bytes_to_read).bytes_read ≤ bytes_to_read)
    (hr : readable mem adr = true) :
    print_results_loop mem value_type count_limit pid name (adr :: rest) st =
      if count_limit ≠ 0 ∧ count_limit ≤ st.results_written_count + 1 then
        Except.ok
          { out_stream := st.out_stream ++ (if st.wrote_pid_header then [] else [header_line pid name])
              ++ [result_line mem value_type adr, OutLine.limit_notice count_limit]
            wrote_pid_header := true
            results_written_count := st.results_written_count + 1
            calls := st.calls ++ access_calls mem pid adr }
      else
        print_results_loop mem value_type count_limit pid name rest
          { out_stream := st.out_stream ++ (if st.wrote_pid_header then [] else [header_line pid name])
              ++ [result_line mem value_type adr]
            wrote_pid_header := true
            results_written_count := st.results_written_count + 1
            calls := st.calls ++ access_calls mem pid adr } := by
  obtain ⟨b, h1, h2⟩ := read_content_readable mem pid adr hb hr
  rw [print_results_loop, h1]
  simp only [h2]
  rfl

theorem print_results_loop_unlimited (mem : Memory) (value_type : ValueType) (pid : Int)
    (name : String) (rs : List Match)
    (hb : reads_fit mem rs) :
    ∀ st : PrintState,
      print_results_loop mem value_type 0 pid name rs st =
        Except.ok
          { out_stream := st.out_stream
              ++ (if st.wrote_pid_header || (rs.filter (readable mem)).isEmpty then []
                  else [header_line pid name])
              ++ (rs.filter (readable mem)).map (result_line mem value_type)
            wrote_pid_header := st.wrote_pid_header || !(rs.filter (readable mem)).isEmpty
            results_written_count :=
              st.results_written_count + ((rs.filter (readable mem)).length : Int)
            calls := st.calls ++ (rs.map (access_calls mem pid)).flatten } := by
  induction rs with
  | nil => intro st; simp [print_results_loop]
  | cons adr rest ih =>
    intro st
    have hrest : reads_fit mem rest := fun a ha => hb a (List.mem_cons_of_mem _ ha)
    cases hr : readable mem adr with
    | false =>
      rw [print_results_loop_unreadable mem value_type 0 pid name adr rest st hr, ih hrest]
      simp [hr]
    | true =>
      rw [print_results_loop_readable mem value_type 0 pid name adr rest st
        (hb adr (List.mem_cons_self _ _) hr) hr]
      simp only [ne_eq, not_true_eq_false, false_and, if_false]
      rw [ih hrest]
      cases hw : st.wrote_pid_header <;> simp [hr, hw] <;> omega

theorem print_results_loop_limited (mem : Memory) (value_type : ValueType) (count_limit : Int)
    (hl : count_limit ≠ 0) (pid : Int) (name : String) (rs : List Match)
    (hb : reads_fit mem rs) :
    ∀ st : PrintState, ∃ st1 : PrintState,
      print_results_loop mem value_type count_limit pid name rs st = Except.ok st1 ∧
      st1.out_stream = st.out_stream
          ++ (if st.wrote_pid_header || (rs.filter (readable mem)).isEmpty then []
              else [header_line pid name])
          ++ ((rs.filter (readable mem)).take (quota count_limit st.results_written_count)).map
              (result_line mem value_type)
          ++ (if quota count_limit st.results_written_count ≤ (rs.filter (readable mem)).length
              then [OutLine.limit_notice count_limit] else []) ∧
      st1.wrote_pid_header = (st.wrote_pid_header || !(rs.filter (readable mem)).isEmpty) := by
  induction rs with
  | nil =>
    intro st
    have hq : ¬ quota count_limit st.results_written_count ≤ 0 := by
      unfold quota; omega
    exact ⟨st, by simp [print_results_loop], by simp [hq], by simp⟩
  | cons adr rest ih =>
    intro st
    have hrest : reads_fit mem rest := fun a ha => hb a (List.mem_cons_of_mem _ ha)
    cases hr : readable mem adr with
    | false =>
      rw [print_results_loop_unreadable mem value_type count_limit pid name adr rest st hr]
      obtain ⟨st1, h1, h2, h3⟩ := ih hrest { st with calls := st.calls ++ access_calls mem pid adr }
      exact ⟨st1, h1, by simpa [hr] using h2, by simpa [hr] using h3⟩
    | true =>
      rw [print_results_loop_readable mem value_type count_limit pid name adr rest st
        (hb adr (List.mem_cons_self _ _) hr) hr]
      by_cases hc : count_limit ≤ st.results_written_count + 1
      · have hq : quota count_limit st.results_written_count = 1 := by
          unfold quota; omega
        rw [if_pos ⟨hl, hc⟩]
        refine ⟨_, rfl, ?_, ?_⟩
        · cases hw : st.wrote_pid_header <;> simp [hr, hq]
        · simp [hr]
      · have hq : quota count_limit st.results_written_count =
            quota count_limit (st.results_written_count + 1) + 1 := by
          unfold quota; omega
        rw [if_neg (fun h => hc h.2)]
        obtain ⟨st1, h1, h2, h3⟩ := ih hrest
          { out_stream := st.out_stream
              ++ (if st.wrote_pid_header then [] else [header_line pid name])
              ++ [result_line mem value_type adr]
            wrote_pid_header := true
            results_written_count := st.results_written_count + 1
            calls := st.calls ++ access_calls mem pid adr }
        refine ⟨st1, h1, ?_, ?_⟩
        · rw [h2, hq]
          cases hw : st.wrote_pid_header <;> simp [hr]
        · rw [h3]; simp [hr]

theorem print_results_unlimited_eq (mem : Memory) (scanner : Scanner) (out_stream : List OutLine)
    (pid : Int) (name : String)
    (hb : reads_fit mem scanner.results) :
    print_results mem scanner 0 out_stream pid name =
      Except.ok
        { out_stream := out_stream ++ pid_block mem scanner.settings.value_type pid name scanner.results
          returned := !(scanner.results.filter (readable mem)).isEmpty
          results_written_count := ((scanner.results.filter (readable mem)).length : Int)
          calls := (scanner.results.map (access_calls mem pid)).flatten } := by
  unfold print_results pid_block
  rw [print_results_loop_unlimited mem _ pid name scanner.results hb]
  cases hf : (scanner.results.filter (readable mem)).isEmpty <;> simp_all

theorem print_results_limited_eq (mem : Memory) (scanner : Scanner) (count_limit : Int)
    (hl : count_limit ≠ 0) (out_stream : List OutLine) (pid : Int) (name : String)
    (hb : reads_fit mem scanner.results) :
    ∃ o : PrintOutcome,
      print_results mem scanner count_limit out_stream pid name = Except.ok o ∧
      o.out_stream = out_stream
          ++ (if (scanner.results.filter (readable mem)).isEmpty then [] else [header_line pid name])
          ++ ((scanner.results.filter (readable mem)).take (quota count_limit 0)).map
              (result_line mem scanner.settings.value_type)
          ++ (if quota count_limit 0 ≤ (scanner.results.filter (readable mem)).length
              then [OutLine.limit_notice count_limit] else [])
          ++ (if (scanner.results.filter (readable mem)).isEmpty then [] else [OutLine.separator]) ∧
      o.returned = !(scanner.results.filter (readable mem)).isEmpty := by
  obtain ⟨st1, h1, h2, h3⟩ := print_results_loop_limited mem scanner.settings.value_type
    count_limit hl pid name scanner.results hb
    { out_stream := out_stream, wrote_pid_header := false, results_written_count := 0, calls := [] }
  unfold print_results
  rw [h1]
  refine ⟨_, rfl, ?_, ?_⟩
  · simp only [h2, h3]
    cases hf : (scanner.results.filter (readable mem)).isEmpty <;> simp
  · simp [h3]

theorem result_addresses_append (a b : List OutLine) :
    result_addresses (a ++ b) = result_addresses a ++ result_addresses b := by
  simp [result_addresses, List.filterMap_append]

theorem result_addresses_lines (mem : Memory) (value_type : ValueType) (l : List Match) :
    result_addresses (l.map (result_line mem value_type)) = l.map Match.address := by
  induction l with
  | nil => rfl
  | cons a l ih =>
    simp only [result_addresses, List.map_cons] at ih ⊢
    rw [List.filterMap_cons]
    simp [result_line, OutLine.result_address, ih]

theorem result_addresses_pid_block (mem : Memory) (value_type : ValueType) (pid : Int)
    (name : String) (results : List Match) :
    result_addresses (pid_block mem value_type pid name results) =
      (results.filter (readable mem)).map Match.address := by
  unfold pid_block
  cases hf : (results.filter (readable mem)).isEmpty
  · rw [if_neg (by simp)]
    rw [show header_line pid name :: (results.filter (readable mem)).map (result_line mem value_type)
        ++ [OutLine.separator] = [header_line pid name]
          ++ ((results.filter (readable mem)).map (result_line mem value_type) ++ [OutLine.separator])
        from rfl]
    rw [result_addresses_append, result_addresses_append, result_addresses_lines]
    simp [result_addresses, header_line, OutLine.result_address]
  · rw [if_pos rfl]
    have := List.isEmpty_iff.mp hf
    simp [this, result_addresses]

theorem sought_access_calls (mem : Memory) (pid : Int) (rs : List Match) :
    sought ((rs.map (access_calls mem pid)).flatten) = rs.map Match.address := by
  induction rs with
  | nil => rfl
  | cons a l ih =>
    simp only [sought, List.map_cons, List.flatten_cons, List.filterMap_append] at ih ⊢
    rw [ih]
    unfold access_calls
    by_cases hs : mem.sys_seek_memory a.address = true <;> simp [hs]

theorem read_at_access_calls (mem : Memory) (pid : Int) (rs : List Match) :
    read_at ((rs.map (access_calls mem pid)).flatten) =
      (rs.filter fun adr => mem.sys_seek_memory adr.address).map Match.address := by
  induction rs with
  | nil => rfl
  | cons a l ih =>
    simp only [read_at, List.map_cons, List.flatten_cons, List.filterMap_append] at ih ⊢
    rw [ih]
    unfold access_calls
    by_cases hs : mem.sys_seek_memory a.address = true <;> simp [hs]

/-- C5: with `count_limit = 0`, and reads that for the readable matches report no more
than the 64 bytes asked for, `print_results` returns normally; the result lines it adds
are, in the order of the result set, exactly one per match for which the seek succeeds,
the read succeeds and at least one byte is returned, so their addresses are a subsequence
of the addresses of the result set; and every match is sought exactly once and read at
most once (once exactly when its seek succeeded), whether it is written or skipped. -/
theorem print_results_writes_readable_matches (mem : Memory) (scanner : Scanner)
    (out_stream : List OutLine) (pid : Int) (name : String)
    (hb : reads_fit mem scanner.results) :
    ∃ o : PrintOutcome,
      print_results mem scanner 0 out_stream pid name = Except.ok o ∧
      o.out_stream =
        out_stream ++ pid_block mem scanner.settings.value_type pid name scanner.results ∧
      result_addresses o.out_stream =
        result_addresses out_stream ++ (scanner.results.filter (readable mem)).map Match.address ∧
      ((scanner.results.filter (readable mem)).map Match.address).Sublist
        (scanner.results.map Match.address) ∧
      sought o.calls = scanner.results.map Match.address ∧
      read_at o.calls =
        (scanner.results.filter fun adr => mem.sys_seek_memory adr.address).map Match.address := by
  refine ⟨_, print_results_unlimited_eq mem scanner out_stream pid name hb, rfl, ?_, ?_, ?_, ?_⟩
  · simp only [result_addresses_append, result_addresses_pid_block]
  · exact (List.filter_sublist _).map _
  · exact sought_access_calls mem pid scanner.results
  · exact read_at_access_calls mem pid scanner.results

/-- The statement C5 on `sample_scanner` and `sample_memory`: of the six matches, those at
0, 2 and 8 are written. -/
theorem print_results_writes_readable_matches_witness :
    ∃ o : PrintOutcome,
      print_results sample_memory sample_scanner 0 [] 1 "init" = Except.ok o ∧
      result_addresses o.out_stream = [0, 2, 8] ∧
      sought o.calls = [0, 1, 2, 4, 6, 8] ∧
      read_at o.calls = [0, 2, 4, 6, 8] := by
  obtain ⟨o, h1, _, h3, _, h5, h6⟩ :=
    print_results_writes_readable_matches sample_memory sample_scanner [] 1 "init"
      (by unfold reads_fit; decide)
  exact ⟨o, h1, by rw [h3]; decide, by rw [h5]; decide, by rw [h6]; decide⟩

theorem content_of_length (b : Buffer) (n : Nat) : (content_of b n).length = n := by
  simp [content_of]

theorem content_of_getElem? (b : Buffer) (n : Nat) (j : Fin 65) (hj : j.val < n) :
    (content_of b n)[j.val]? = some (if isprint (b j) = true then b j else '.') := by
  unfold content_of
  rw [List.getElem?_map, List.getElem?_range' _ _ hj]
  simp [shown, Buffer.at]

/-- C8: when the read of `print_results` reports no more than the 64 bytes asked for,
lines 87 to 99 run without leaving the 65 bytes of `mem_buffer`; and when they set
`content_successfully_read`, the terminator was stored at index `bytes_read` inside the
buffer, the content loop loads every index `j < bytes_read` inside the buffer, where it
finds the byte the read left there, and the content field it writes has exactly
`bytes_read` characters, the `j`-th being that byte when it is printable and `.`
otherwise. -/
theorem read_content_within_buffer (mem : Memory) (pid : Int) (address : Nat)
    (hb : (mem.sys_read_memory address bytes_to_read).bytes_read ≤ bytes_to_read) :
    (∃ res, read_content mem pid address = Except.ok res) ∧
    ∀ b n calls, read_content mem pid address = Except.ok (some (b, n), calls) →
      n = (mem.sys_read_memory address bytes_to_read).bytes_read ∧
      (mem.sys_read_memory address bytes_to_read).mem_buffer.store n '\x00' = some b ∧
      ∃ content, write_content b 0 n = some content ∧ content.length = n ∧
        ∀ j : Fin 65, j.val < n →
          b.load j.val = some ((mem.sys_read_memory address bytes_to_read).mem_buffer j) ∧
          content[j.val]? =
            some (if isprint ((mem.sys_read_memory address bytes_to_read).mem_buffer j) = true
              then (mem.sys_read_memory address bytes_to_read).mem_buffer j else '.') := by
  have h65 : (mem.sys_read_memory address bytes_to_read).bytes_read < 65 := by
    unfold bytes_to_read at hb ⊢
    omega
  have hstore := Buffer.store_eq (mem.sys_read_memory address bytes_to_read).mem_buffer _ '\x00' h65
  constructor
  · simp only [read_content, hstore]
    by_cases hs : mem.sys_seek_memory address = true
    · by_cases hk : (mem.sys_read_memory address bytes_to_read).ok = true
      · by_cases hz : 0 < (mem.sys_read_memory address bytes_to_read).bytes_read
        · simp only [hs, hk, hz, if_true]
          exact ⟨_, rfl⟩
        · simp only [hs, hk, hz, if_true, if_false]
          exact ⟨_, rfl⟩
      · simp only [hs, hk, if_true]
        exact ⟨_, rfl⟩
    · simp only [hs]
      exact ⟨_, rfl⟩
  · intro b n calls hrc
    simp only [read_content, hstore] at hrc
    by_cases hs : mem.sys_seek_memory address = true
    · by_cases hk : (mem.sys_read_memory address bytes_to_read).ok = true
      · by_cases hz : 0 < (mem.sys_read_memory address bytes_to_read).bytes_read
        · simp only [hs, hk, hz, if_true] at hrc
          injection hrc with hrc
          injection hrc with hrc _
          injection hrc with hrc
          injection hrc with hb1 hn
          subst hn
          subst hb1
          refine ⟨rfl, hstore, content_of (mem.sys_read_memory address bytes_to_read).mem_buffer _,
            ?_, content_of_length _ _, ?_⟩
          · rw [write_content_eq _ _ 0 (by omega), ← content_of_update _ _ '\x00' h65]
            rfl
          · intro j hj
            refine ⟨?_, content_of_getElem? _ _ j hj⟩
            rw [Buffer.load_eq _ _ j.isLt, Buffer.at_update _ _ _ h65 _ hj]
            simp [Buffer.at]
        · simp [hs, hk, hz] at hrc
      · simp [hs, hk] at hrc
    · simp [hs] at hrc

/-- The statement C8 for the read at address 0 of `sample_memory`, which reports 3 bytes:
the bytes `H`, `i` and a control character are written as `Hi.`. -/
theorem read_content_within_buffer_witness :
    ∃ b calls, read_content sample_memory 1 0 = Except.ok (some (b, 3), calls) ∧
      write_content b 0 3 = some ['H', 'i', '.'] := by
  obtain ⟨⟨res, hres⟩, h⟩ := read_content_within_buffer sample_memory 1 0 (by decide)
  have hrc : read_content sample_memory 1 0 =
      Except.ok (some (Function.update sample_buffer ⟨3, by decide⟩ '\x00', 3),
        [Event.seek 1 0, Event.read 1 0 bytes_to_read]) := by
    simp [read_content, sample_memory, Buffer.store]
  obtain ⟨_, _, content, hc, hlen, hget⟩ := h _ _ _ hrc
  refine ⟨_, _, hrc, ?_⟩
  rw [hc]
  have h0 := (hget ⟨0, by decide⟩ (by decide)).2
  have h1 := (hget ⟨1, by decide⟩ (by decide)).2
  have h2 := (hget ⟨2, by decide⟩ (by decide)).2
  match content, hlen, h0, h1, h2 with
  | [a, b, c], _, h0, h1, h2 =>
    simp [sample_memory, sample_buffer, isprint] at h0 h1 h2
    simp [h0, h1, h2]

theorem quota_zero_of_pos (count_limit : Int) (h : 0 < count_limit) :
    quota count_limit 0 = count_limit.toNat := by
  unfold quota; omega

theorem quota_zero_of_neg (count_limit : Int) (h : count_limit < 0) :
    quota count_limit 0 = 1 := by
  unfold quota; omega

theorem print_results_added (mem : Memory) (scanner : Scanner) (count_limit : Int)
    (out_stream : List OutLine) (pid : Int) (name : String)
    (hb : reads_fit mem scanner.results) :
    ∃ (o : PrintOutcome) (added : List OutLine),
      print_results mem scanner count_limit out_stream pid name = Except.ok o ∧
      o.out_stream = out_stream ++ added ∧
      result_addresses added =
        ((scanner.results.filter (readable mem)).take
          (lines_allowed count_limit (scanner.results.filter (readable mem)).length)).map
          Match.address ∧
      o.returned = !(scanner.results.filter (readable mem)).isEmpty ∧
      (0 < count_limit → (OutLine.limit_notice count_limit ∈ added ↔
        count_limit.toNat ≤ (scanner.results.filter (readable mem)).length)) := by
  by_cases hl : count_limit = 0
  · subst hl
    refine ⟨_, pid_block mem scanner.settings.value_type pid name scanner.results,
      print_results_unlimited_eq mem scanner out_stream pid name hb, rfl, ?_, rfl, ?_⟩
    · rw [result_addresses_pid_block]
      simp [lines_allowed]
    · intro h; omega
  · obtain ⟨o, h1, h2, hret⟩ := print_results_limited_eq mem scanner count_limit hl out_stream
      pid name hb
    have hq : min (quota count_limit 0) (scanner.results.filter (readable mem)).length =
        lines_allowed count_limit (scanner.results.filter (readable mem)).length := by
      rcases lt_or_gt_of_ne hl with hneg | hpos
      · rw [quota_zero_of_neg _ hneg]
        simp [lines_allowed, hl, not_lt.mpr (le_of_lt hneg)]
      · rw [quota_zero_of_pos _ hpos]
        simp [lines_allowed, hl, hpos]
    refine ⟨o,
      (if (scanner.results.filter (readable mem)).isEmpty then [] else [header_line pid name])
        ++ ((scanner.results.filter (readable mem)).take (quota count_limit 0)).map
            (result_line mem scanner.settings.value_type)
        ++ (if quota count_limit 0 ≤ (scanner.results.filter (readable mem)).length
            then [OutLine.limit_notice count_limit] else [])
        ++ (if (scanner.results.filter (readable mem)).isEmpty then [] else [OutLine.separator]),
      h1, by rw [h2]; simp only [List.append_assoc], ?_, hret, ?_⟩
    · simp only [result_addresses_append, result_addresses_lines]
      rw [← hq, ← List.take_take, List.take_length]
      cases hf : (scanner.results.filter (readable mem)).isEmpty <;>
        simp [result_addresses, header_line, OutLine.result_address]
    · intro hpos
      rw [quota_zero_of_pos _ hpos]
      by_cases hle : count_limit.toNat ≤ (scanner.results.filter (readable mem)).length
      · simp [hle]
      · simp only [hle, if_false, iff_false]
        have hnot : OutLine.limit_notice count_limit ∉
            List.take count_limit.toNat
              (List.map (result_line mem scanner.settings.value_type)
                (List.filter (readable mem) scanner.results)) := by
          intro hmem
          have := List.mem_of_mem_take hmem
          simp [result_line] at this
        cases hf : (scanner.results.filter (readable mem)).isEmpty <;>
          simp [header_line, hnot]

/-- C9: with `r` readable matches in the result set, whose reads report no more than the
64 bytes asked for, `print_results` returns normally and the result lines it adds
are those of the first `lines_allowed count_limit r` readable matches, in order: all `r`
for `count_limit = 0`, `min n r` for `count_limit = n > 0`, `min 1 r` for a negative
`count_limit`. For `count_limit = n > 0` the notice line is among the added lines exactly
when `n ≤ r`. Only readable matches are counted. -/
theorem print_results_count_limit (mem : Memory) (scanner : Scanner) (count_limit : Int)
    (out_stream : List OutLine) (pid : Int) (name : String)
    (hb : reads_fit mem scanner.results) :
    ∃ (o : PrintOutcome) (added : List OutLine),
      print_results mem scanner count_limit out_stream pid name = Except.ok o ∧
      o.out_stream = out_stream ++ added ∧
      result_addresses added =
        ((scanner.results.filter (readable mem)).take
          (lines_allowed count_limit (scanner.results.filter (readable mem)).length)).map
          Match.address ∧
      (result_addresses added).length =
        lines_allowed count_limit (scanner.results.filter (readable mem)).length ∧
      (count_limit = 0 → (result_addresses added).length =
        (scanner.results.filter (readable mem)).length) ∧
      (0 < count_limit → (result_addresses added).length =
        min count_limit.toNat (scanner.results.filter (readable mem)).length) ∧
      (count_limit < 0 → (result_addresses added).length =
        min 1 (scanner.results.filter (readable mem)).length) ∧
      (0 < count_limit → (OutLine.limit_notice count_limit ∈ added ↔
        count_limit.toNat ≤ (scanner.results.filter (readable mem)).length)) := by
  obtain ⟨o, added, h1, h2, h3, _, h4⟩ :=
    print_results_added mem scanner count_limit out_stream pid name hb
  have hlen : (result_addresses added).length =
      lines_allowed count_limit (scanner.results.filter (readable mem)).length := by
    rw [h3, List.length_map, List.length_take]
    unfold lines_allowed
    split
    · simp
    · split <;> simp
  refine ⟨o, added, h1, h2, h3, hlen, ?_, ?_, ?_, h4⟩
  · intro h; rw [hlen]; simp [lines_allowed, h]
  · intro h; rw [hlen]; simp [lines_allowed, h, ne_of_gt h]
  · intro h; rw [hlen]; simp [lines_allowed, ne_of_lt h, not_lt.mpr (le_of_lt h)]

/-- The statement C9 on `sample_scanner` and `sample_memory` with `count_limit = 2`: of
the three readable matches the first two are written, followed by the notice. -/
theorem print_results_count_limit_witness :
    ∃ (o : PrintOutcome) (added : List OutLine),
      print_results sample_memory sample_scanner 2 [] 1 "init" = Except.ok o ∧
      o.out_stream = [] ++ added ∧
      result_addresses added = [0, 2] ∧
      OutLine.limit_notice 2 ∈ added := by
  obtain ⟨o, added, h1, h2, h3, _, _, _, _, h8⟩ :=
    print_results_count_limit sample_memory sample_scanner 2 [] 1 "init"
      (by unfold reads_fit; decide)
  exact ⟨o, added, h1, h2, by rw [h3]; decide, (h8 (by decide)).mpr (by decide)⟩

/-! ## Properties of `getAllPids` -/

theorem foldl_digits (l : List Char) :
    ∀ acc : Nat, l.foldl (fun acc c => acc * 10 + digit_value c) acc =
      acc * 10 ^ l.length + Nat.ofDigits 10 (l.reverse.map digit_value) := by
  induction l with
  | nil => intro acc; simp
  | cons c l ih =>
    intro acc
    simp only [List.foldl_cons, List.reverse_cons, List.map_append, List.map_cons, List.map_nil,
      List.length_cons]
    rw [ih, Nat.ofDigits_append, Nat.ofDigits_singleton]
    simp only [List.length_map, List.length_reverse]
    ring

theorem dropWhile_isspace_digits (l : List Char) (h : l.all isdigit = true) :
    l.dropWhile isspace = l := by
  cases l with
  | nil => rfl
  | cons c t =>
    have hc : isdigit c = true := by
      simp only [List.all_cons, Bool.and_eq_true] at h
      exact h.1
    have hs : isspace c = false := by
      simp only [isdigit, Bool.and_eq_true, decide_eq_true_eq] at hc
      simp only [isspace, Bool.or_eq_false_iff, Bool.and_eq_false_iff, beq_eq_false_iff_ne,
        decide_eq_false_iff_not]
      omega
    simp [List.dropWhile_cons, hs]

theorem stoi_sign_digits (l : List Char) (h : l.all isdigit = true) : stoi_sign l = (false, l) := by
  cases l with
  | nil => rfl
  | cons c t =>
    have hc : isdigit c = true := by
      simp only [List.all_cons, Bool.and_eq_true] at h
      exact h.1
    have h1 : c ≠ '-' := by
      intro heq; subst heq; revert hc; decide
    have h2 : c ≠ '+' := by
      intro heq; subst heq; revert hc; decide
    simp [stoi_sign, h1, h2]

theorem takeWhile_isdigit_digits (l : List Char) (h : l.all isdigit = true) :
    l.takeWhile isdigit = l := by
  rw [List.takeWhile_eq_self_iff]
  intro c hc
  exact List.all_eq_true.mp h c hc

theorem stoi_digits (name : String) (hne : name.data.isEmpty = false)
    (hd : name.data.all isdigit = true) :
    stoi name =
      if (decimal_value name : Int) ≤ INT_MAX then StoiResult.value (decimal_value name)
      else StoiResult.out_of_range := by
  have hval : name.data.foldl (fun acc c => acc * 10 + digit_value c) 0 = decimal_value name := by
    rw [foldl_digits]; simp [decimal_value]
  simp only [stoi, dropWhile_isspace_digits _ hd, stoi_sign_digits _ hd,
    takeWhile_isdigit_digits _ hd, hne, hval]
  have hmin : ¬ ((decimal_value name : Int) < INT_MIN) := by
    unfold INT_MIN; omega
  by_cases hmax : (decimal_value name : Int) ≤ INT_MAX
  · simp [hmax, hmin, not_lt.mpr hmax]
  · simp [hmax, not_le.mp hmax]

theorem getAllPids_loop_eq (entries : List dirent) :
    ∀ pids : List Int, getAllPids_loop entries pids =
      pids ++ (entries.filter is_pid_entry).map fun entry => (decimal_value entry.d_name : Int) := by
  induction entries with
  | nil => intro pids; simp [getAllPids_loop]
  | cons entry rest ih =>
    intro pids
    unfold getAllPids_loop
    by_cases hdir : entry.d_type = DType.DT_DIR
    · by_cases hne : entry.d_name.data.isEmpty = false
      · by_cases hd : entry.d_name.data.all isdigit = true
        · rw [if_pos hdir]
          simp only [hne, hd, Bool.not_false, Bool.and_self, if_true]
          rw [stoi_digits _ hne hd]
          by_cases hmax : (decimal_value entry.d_name : Int) ≤ INT_MAX
          · simp [hmax, ih, is_pid_entry, hdir, hne, hd]
          · simp [hmax, ih, is_pid_entry, hdir, hne, hd]
        · simp [hdir, hne, hd, ih, is_pid_entry]
      · simp [hdir, hne, ih, is_pid_entry]
    · simp [hdir, ih, is_pid_entry]

/-- C10: for every listing of `/proc`, `getAllPids` returns a list that is in ascending
order and is a permutation of the values of the entries that are directories whose name
is not empty, consists of decimal digits only and denotes a number that fits in `int`,
with one element per such entry; no other entry contributes. -/
theorem getAllPids_sorted_perm (entries : List dirent) :
    (getAllPids (some entries)).Sorted (· ≤ ·) ∧
    (getAllPids (some entries)).Perm
      ((entries.filter is_pid_entry).map fun entry => (decimal_value entry.d_name : Int)) := by
  constructor
  · exact List.sorted_insertionSort _ _
  · unfold getAllPids
    refine (List.perm_insertionSort _ _).trans ?_
    rw [getAllPids_loop_eq]
    simp

/-! ## Properties of the prompts -/

theorem mem_of_lookup_eq_some {α : Type} (k : String) (v : α) (l : List (String × α))
    (h : l.lookup k = some v) : (k, v) ∈ l := by
  induction l with
  | nil => simp at h
  | cons kv l ih =>
    obtain ⟨k1, v1⟩ := kv
    rw [List.lookup_cons] at h
    by_cases hk : k == k1
    · simp only [hk] at h
      have hk1 : k = k1 := by simpa using hk
      have hv1 : v1 = v := by simpa using h
      subst hk1; subst hv1
      exact List.mem_cons_self _ _
    · simp only [hk] at h
      exact List.mem_cons_of_mem _ (ih h)

theorem value_types_lookup (token : String) (v : ValueType) :
    value_types.lookup (lowercase token) = some v ↔
      lowercase (value_type_name v) = lowercase token := by
  constructor
  · intro h
    have hmem := mem_of_lookup_eq_some _ _ _ h
    simp only [value_types, List.mem_cons, Prod.mk.injEq, List.mem_singleton, List.not_mem_nil,
      or_false] at hmem
    rcases hmem with h | h | h | h | h | h | h <;> (rw [h.1, h.2]; decide)
  · intro h
    rw [← h]
    cases v <;> decide

theorem compare_types_lookup (token : String) (v : CompareType) :
    compare_types.lookup (lowercase token) = some v ↔
      lowercase (compare_type_name v) = lowercase token := by
  constructor
  · intro h
    have hmem := mem_of_lookup_eq_some _ _ _ h
    simp only [compare_types, List.mem_cons, Prod.mk.injEq, List.mem_singleton, List.not_mem_nil,
      or_false] at hmem
    rcases hmem with h | h | h | h | h | h | h | h <;> (rw [h.1, h.2]; decide)
  · intro h
    rw [← h]
    cases v <;> decide

theorem exists_first_token (p : String → Prop) (cin : List String) (h : ∃ t ∈ cin, p t) :
    ∃ before token after, cin = before ++ token :: after ∧ (∀ b ∈ before, ¬ p b) ∧ p token := by
  induction cin with
  | nil => simp at h
  | cons s rest ih =>
    by_cases hs : p s
    · exact ⟨[], s, rest, rfl, by simp, hs⟩
    · obtain ⟨t, ht, hpt⟩ := h
      have hrest : ∃ t ∈ rest, p t := by
        rcases List.mem_cons.mp ht with heq | hmem
        · subst heq; exact absurd hpt hs
        · exact ⟨t, hmem, hpt⟩
      obtain ⟨before, token, after, h1, h2, h3⟩ := ih hrest
      refine ⟨s :: before, token, after, by rw [h1]; rfl, ?_, h3⟩
      intro b hb
      rcases List.mem_cons.mp hb with heq | hmem
      · subst heq; exact hs
      · exact h2 b hmem

theorem set_value_type_skip (settings : Settings) (s : String) (rest : List String)
    (h : ¬ ends_value_type_prompt s) :
    set_value_type settings (s :: rest) = set_value_type settings rest := by
  have hq : lowercase s ≠ "!q" := fun hq => h (Or.inl hq)
  have hl : value_types.lookup (lowercase s) = none := by
    cases hlk : value_types.lookup (lowercase s) with
    | none => rfl
    | some v => exact absurd (Or.inr ⟨v, (value_types_lookup s v).mp hlk⟩) h
  rw [set_value_type]
  simp [GetInputLower, GetInput, hq, hl]

theorem set_compare_type_skip (settings : Settings) (s : String) (rest : List String)
    (h : ¬ ends_compare_type_prompt s) :
    set_compare_type settings (s :: rest) = set_compare_type settings rest := by
  have hq : lowercase s ≠ "!q" := fun hq => h (Or.inl hq)
  have hl : compare_types.lookup (lowercase s) = none := by
    cases hlk : compare_types.lookup (lowercase s) with
    | none => rfl
    | some v => exact absurd (Or.inr ⟨v, (compare_types_lookup s v).mp hlk⟩) h
  rw [set_compare_type]
  simp [GetInputLower, GetInput, hq, hl]

theorem set_value_type_first (settings : Settings) (before : List String) (token : String)
    (after : List String) (hb : ∀ b ∈ before, ¬ ends_value_type_prompt b) :
    set_value_type settings (before ++ token :: after) =
      set_value_type settings (token :: after) := by
  induction before with
  | nil => rfl
  | cons s rest ih =>
    rw [List.cons_append, set_value_type_skip settings s _ (hb s (List.mem_cons_self _ _))]
    exact ih fun b hmem => hb b (List.mem_cons_of_mem _ hmem)

theorem set_compare_type_first (settings : Settings) (before : List String) (token : String)
    (after : List String) (hb : ∀ b ∈ before, ¬ ends_compare_type_prompt b) :
    set_compare_type settings (before ++ token :: after) =
      set_compare_type settings (token :: after) := by
  induction before with
  | nil => rfl
  | cons s rest ih =>
    rw [List.cons_append, set_compare_type_skip settings s _ (hb s (List.mem_cons_self _ _))]
    exact ih fun b hmem => hb b (List.mem_cons_of_mem _ hmem)

theorem set_value_type_stop (settings : Settings) (token : String) (after : List String)
    (h : ends_value_type_prompt token) :
    ∃ settings1, set_value_type settings (token :: after) = some (settings1, after) ∧
      (lowercase token = "!q" → settings1 = settings) ∧
      (lowercase token ≠ "!q" → ∃ v : ValueType, lowercase (value_type_name v) = lowercase token ∧
        settings1 = { settings with value_type := v }) := by
  by_cases hq : lowercase token = "!q"
  · refine ⟨settings, ?_, fun _ => rfl, fun hne => absurd hq hne⟩
    rw [set_value_type]
    simp [GetInputLower, GetInput, hq]
  · rcases h with h | ⟨v, hv⟩
    · exact absurd h hq
    · refine ⟨{ settings with value_type := v }, ?_, fun h => absurd h hq, fun _ => ⟨v, hv, rfl⟩⟩
      rw [set_value_type]
      simp [GetInputLower, GetInput, hq, (value_types_lookup token v).mpr hv]

theorem set_compare_type_stop (settings : Settings) (token : String) (after : List String)
    (h : ends_compare_type_prompt token) :
    ∃ settings1, set_compare_type settings (token :: after) = some (settings1, after) ∧
      (lowercase token = "!q" → settings1 = settings) ∧
      (lowercase token ≠ "!q" → ∃ v : CompareType, lowercase (compare_type_name v) = lowercase token ∧
        settings1 = { settings with compare_type := v }) := by
  by_cases hq : lowercase token = "!q"
  · refine ⟨settings, ?_, fun _ => rfl, fun hne => absurd hq hne⟩
    rw [set_compare_type]
    simp [GetInputLower, GetInput, hq]
  · rcases h with h | ⟨v, hv⟩
    · exact absurd h hq
    · refine ⟨{ settings with compare_type := v }, ?_, fun h => absurd h hq, fun _ => ⟨v, hv, rfl⟩⟩
      rw [set_compare_type]
      simp [GetInputLower, GetInput, hq, (compare_types_lookup token v).mpr hv]

/-- C7: when the tokens to come contain one that, without regard to case, is `!q` or the
name of a value type, `set_value_type` returns at the first such token, with the tokens
after it left in the input; the tokens before it change nothing; if the token is `!q` the
settings are unchanged, otherwise `value_type` (and nothing else) is set to the value type
whose name equals the token without regard to case. The same holds for
`set_compare_type` and the names of the compare types. -/
theorem prompts_stop_at_first_known_token (settings : Settings) (cin : List String) :
    ((∃ t ∈ cin, ends_value_type_prompt t) →
      ∃ before token after settings1,
        cin = before ++ token :: after ∧
        (∀ b ∈ before, ¬ ends_value_type_prompt b) ∧ ends_value_type_prompt token ∧
        set_value_type settings cin = some (settings1, after) ∧
        set_value_type settings cin = set_value_type settings (token :: after) ∧
        (lowercase token = "!q" → settings1 = settings) ∧
        (lowercase token ≠ "!q" → ∃ v : ValueType,
          lowercase (value_type_name v) = lowercase token ∧
          settings1 = { settings with value_type := v })) ∧
    ((∃ t ∈ cin, ends_compare_type_prompt t) →
      ∃ before token after settings1,
        cin = before ++ token :: after ∧
        (∀ b ∈ before, ¬ ends_compare_type_prompt b) ∧ ends_compare_type_prompt token ∧
        set_compare_type settings cin = some (settings1, after) ∧
        set_compare_type settings cin = set_compare_type settings (token :: after) ∧
        (lowercase token = "!q" → settings1 = settings) ∧
        (lowercase token ≠ "!q" → ∃ v : CompareType,
          lowercase (compare_type_name v) = lowercase token ∧
          settings1 = { settings with compare_type := v })) := by
  constructor
  · intro h
    obtain ⟨before, token, after, h1, h2, h3⟩ := exists_first_token _ cin h
    obtain ⟨settings1, h4, h5, h6⟩ := set_value_type_stop settings token after h3
    have h7 := set_value_type_first settings before token after h2
    exact ⟨before, token, after, settings1, h1, h2, h3, by rw [h1, h7, h4], by rw [h1, h7], h5, h6⟩
  · intro h
    obtain ⟨before, token, after, h1, h2, h3⟩ := exists_first_token _ cin h
    obtain ⟨settings1, h4, h5, h6⟩ := set_compare_type_stop settings token after h3
    have h7 := set_compare_type_first settings before token after h2
    exact ⟨before, token, after, settings1, h1, h2, h3, by rw [h1, h7, h4], by rw [h1, h7], h5, h6⟩

/-- The statement C7 for the tokens `foo INT64 bar` at the value type prompt: the prompt
returns, and it yields what evaluation of `set_value_type` yields, `Int64` with `bar` left
in the input. -/
theorem prompts_stop_at_first_known_token_witness :
    (∃ t ∈ ["foo", "INT64", "bar"], ends_value_type_prompt t) ∧
    (∃ before token after settings1,
      ["foo", "INT64", "bar"] = before ++ token :: after ∧
      set_value_type sample_settings ["foo", "INT64", "bar"] = some (settings1, after)) ∧
    set_value_type sample_settings ["foo", "INT64", "bar"] =
      some ({ sample_settings with value_type := ValueType.Int64 }, ["bar"]) := by
  have hyp : ∃ t ∈ ["foo", "INT64", "bar"], ends_value_type_prompt t :=
    ⟨"INT64", by simp, Or.inr ⟨ValueType.Int64, by decide⟩⟩
  obtain ⟨before, token, after, settings1, h1, _, _, h4, _⟩ :=
    (prompts_stop_at_first_known_token sample_settings ["foo", "INT64", "bar"]).1 hyp
  exact ⟨hyp, ⟨before, token, after, settings1, h1, h4⟩, by decide⟩

/-! ## Properties of `main` -/

theorem pid_block_isEmpty (mem : Memory) (value_type : ValueType) (pid : Int) (name : String)
    (results : List Match) :
    (pid_block mem value_type pid name results).isEmpty =
      (results.filter (readable mem)).isEmpty := by
  unfold pid_block
  cases hf : (results.filter (readable mem)).isEmpty <;> simp

theorem scan_pid_eq (env : Env) (settings : Settings) (scan_value_str : String) (pid : Int)
    (st : MainState)
    (hb : ∀ results, scan_results env settings scan_value_str pid = some results →
      reads_fit (env.memory pid) results) :
    scan_pid env settings scan_value_str pid st =
      Except.ok
        { outfile := st.outfile ++ pid_lines env settings scan_value_str pid
          any_match_found_in_run :=
            st.any_match_found_in_run || !(pid_lines env settings scan_value_str pid).isEmpty
          calls := st.calls ++ pid_calls env settings scan_value_str pid } := by
  unfold scan_pid pid_lines pid_calls
  unfold scan_results at hb ⊢
  unfold Scanner.construct Scanner.find
  cases hc : env.construct pid with
  | some e => simp
  | none =>
    simp only [hc] at hb
    cases hf : env.find pid settings (find_argument settings.compare_type scan_value_str) with
    | error e => simp [hf]
    | ok results =>
      simp only [hf] at hb
      have hb1 := hb results rfl
      simp only [hf]
      rw [print_results_unlimited_eq (env.memory pid)
        { process_id := pid, settings := settings, results := results } st.outfile pid
        (getProcessNameByPid env.comm pid) hb1]
      simp [pid_block_isEmpty]

theorem main_loop_eq (env : Env) (settings : Settings) (scan_value_str : String)
    (pids : List Int) (hb : reads_within_request env settings scan_value_str pids) :
    ∀ st : MainState,
      main_loop env settings scan_value_str pids st =
        Except.ok
          { outfile := st.outfile ++ (pids.map (pid_lines env settings scan_value_str)).flatten
            any_match_found_in_run := st.any_match_found_in_run ||
              pids.any fun pid => !(pid_lines env settings scan_value_str pid).isEmpty
            calls := st.calls ++ (pids.map (pid_calls env settings scan_value_str)).flatten } := by
  induction pids with
  | nil => intro st; simp [main_loop]
  | cons pid rest ih =>
    intro st
    have hrest : reads_within_request env settings scan_value_str rest :=
      fun q hq => hb q (List.mem_cons_of_mem _ hq)
    rw [main_loop, scan_pid_eq env settings scan_value_str pid st (hb pid (List.mem_cons_self _ _))]
    simp only
    rw [ih hrest]
    simp [Bool.or_assoc]

theorem main_with_pids_eq (env : Env) (input : Input) (pids : List Int) (settings : Settings)
    (rest : List String) (hs : setup env.default_settings input.cin = some (settings, rest))
    (hb : reads_within_request env settings (scan_value settings input.value_line) pids) :
    main_with_pids env input pids =
      Except.ok
        { exit_code := 0
          outfile := [OutLine.title input.now, OutLine.rule, OutLine.blank]
            ++ (pids.map (pid_lines env settings (scan_value settings input.value_line))).flatten
            ++ (if (pids.any fun pid =>
                  !(pid_lines env settings (scan_value settings input.value_line) pid).isEmpty)
                then [] else [OutLine.no_match])
            ++ [OutLine.blank, OutLine.rule, OutLine.finished]
          calls := (if wants_value settings.compare_type then [Event.value_prompt] else [])
            ++ (pids.map (pid_calls env settings (scan_value settings input.value_line))).flatten } := by
  unfold main_with_pids
  rw [hs]
  simp only
  have hloop := main_loop_eq env settings (scan_value settings input.value_line) pids hb
  unfold scan_value at hloop ⊢
  rw [hloop]
  simp

theorem reads_within_request_of_bounded (env : Env) (h : env.reads_bounded) (settings : Settings)
    (scan_value_str : String) (pids : List Int) :
    reads_within_request env settings scan_value_str pids :=
  fun pid _ _ _ adr _ _ => h pid adr.address

theorem main_returns (env : Env) (input : Input) (settings : Settings) (rest : List String)
    (hs : setup env.default_settings input.cin = some (settings, rest))
    (hb : env.reads_bounded) : ∃ r, main env input = Except.ok r := by
  unfold main
  split
  · exact ⟨_, main_with_pids_eq env input _ settings rest hs
      (reads_within_request_of_bounded env hb _ _ _)⟩
  · exact ⟨_, rfl⟩

theorem main_eq (env : Env) (input : Input) (settings : Settings) (rest : List String)
    (ho : input.outfile_is_open = true)
    (hs : setup env.default_settings input.cin = some (settings, rest))
    (hb : reads_within_request env settings (scan_value settings input.value_line)
      (getAllPids input.proc_dir)) :
    main env input = main_with_pids env input (getAllPids input.proc_dir) ∧
    main_with_pids env input (getAllPids input.proc_dir) =
      Except.ok
        { exit_code := 0
          outfile := [OutLine.title input.now, OutLine.rule, OutLine.blank]
            ++ ((getAllPids input.proc_dir).map
                (pid_lines env settings (scan_value settings input.value_line))).flatten
            ++ (if ((getAllPids input.proc_dir).any fun pid =>
                  !(pid_lines env settings (scan_value settings input.value_line) pid).isEmpty)
                then [] else [OutLine.no_match])
            ++ [OutLine.blank, OutLine.rule, OutLine.finished]
          calls := (if wants_value settings.compare_type then [Event.value_prompt] else [])
            ++ ((getAllPids input.proc_dir).map
                (pid_calls env settings (scan_value settings input.value_line))).flatten } := by
  constructor
  · simp [main, ho]
  · exact main_with_pids_eq env input _ settings rest hs hb

theorem read_content_overrun (mem : Memory) (pid : Int) (adr : Match)
    (hr : readable mem adr = true)
    (hnb : ¬ (mem.sys_read_memory adr.address bytes_to_read).bytes_read ≤ bytes_to_read) :
    read_content mem pid adr.address = Except.error Fault.buffer_overrun := by
  unfold readable at hr
  simp only [Bool.and_eq_true, decide_eq_true_eq] at hr
  obtain ⟨hs, hk, hz⟩ := hr
  have h65 : ¬ (mem.sys_read_memory adr.address bytes_to_read).bytes_read < 65 := by
    unfold bytes_to_read at hnb ⊢
    omega
  simp [read_content, hs, hk, hz, Buffer.store, h65]

theorem print_results_loop_ok_fit (mem : Memory) (value_type : ValueType) (pid : Int)
    (name : String) (rs : List Match) :
    ∀ st st1 : PrintState,
      print_results_loop mem value_type 0 pid name rs st = Except.ok st1 → reads_fit mem rs := by
  induction rs with
  | nil => intro st st1 _ adr hadr; simp at hadr
  | cons adr rest ih =>
    intro st st1 h
    cases hr : readable mem adr with
    | false =>
      rw [print_results_loop_unreadable mem value_type 0 pid name adr rest st hr] at h
      have hrest := ih _ _ h
      intro a ha hra
      rcases List.mem_cons.mp ha with heq | hmem
      · subst heq; rw [hr] at hra; cases hra
      · exact hrest a hmem hra
    | true =>
      by_cases hbd : (mem.sys_read_memory adr.address bytes_to_read).bytes_read ≤ bytes_to_read
      · rw [print_results_loop_readable mem value_type 0 pid name adr rest st hbd hr] at h
        simp only [ne_eq, not_true_eq_false, false_and, if_false] at h
        have hrest := ih _ _ h
        intro a ha hra
        rcases List.mem_cons.mp ha with heq | hmem
        · subst heq; exact hbd
        · exact hrest a hmem hra
      · rw [print_results_loop, read_content_overrun mem pid adr hr hbd] at h
        cases h

theorem print_results_ok_fit (mem : Memory) (scanner : Scanner) (out_stream : List OutLine)
    (pid : Int) (name : String) (o : PrintOutcome)
    (h : print_results mem scanner 0 out_stream pid name = Except.ok o) :
    reads_fit mem scanner.results := by
  unfold print_results at h
  split at h
  · cases h
  · rename_i st hloop
    exact print_results_loop_ok_fit mem _ pid name scanner.results _ st hloop

theorem scan_pid_ok_fit (env : Env) (settings : Settings) (scan_value_str : String) (pid : Int)
    (st st1 : MainState) (h : scan_pid env settings scan_value_str pid st = Except.ok st1) :
    ∀ results, scan_results env settings scan_value_str pid = some results →
      reads_fit (env.memory pid) results := by
  intro results hres
  unfold scan_results at hres
  unfold scan_pid Scanner.construct Scanner.find at h
  cases hc : env.construct pid with
  | some e => simp [hc] at hres
  | none =>
    simp only [hc] at hres h
    cases hf : env.find pid settings (find_argument settings.compare_type scan_value_str) with
    | error e => simp [hf] at hres
    | ok rs =>
      simp only [hf] at hres h
      injection hres with hres
      subst hres
      split at h
      · cases h
      · rename_i o hp
        exact print_results_ok_fit (env.memory pid) _ _ pid _ o hp

theorem main_loop_ok_fit (env : Env) (settings : Settings) (scan_value_str : String)
    (pids : List Int) :
    ∀ st st1 : MainState,
      main_loop env settings scan_value_str pids st = Except.ok st1 →
      reads_within_request env settings scan_value_str pids := by
  induction pids with
  | nil => intro st st1 _ q hq; simp at hq
  | cons pid rest ih =>
    intro st st1 h
    rw [main_loop] at h
    cases hsp : scan_pid env settings scan_value_str pid st with
    | error f => simp [hsp] at h
    | ok st2 =>
      simp only [hsp] at h
      intro q hq
      rcases List.mem_cons.mp hq with heq | hmem
      · subst heq
        exact scan_pid_ok_fit env settings scan_value_str q st st2 hsp
      · exact ih _ _ h q hmem

theorem main_with_pids_ok_inv (env : Env) (input : Input) (pids : List Int) (r : RunResult)
    (h : main_with_pids env input pids = Except.ok r) :
    ∃ settings rest, setup env.default_settings input.cin = some (settings, rest) ∧
      reads_within_request env settings (scan_value settings input.value_line) pids := by
  unfold main_with_pids at h
  cases hs : setup env.default_settings input.cin with
  | none => simp [hs] at h
  | some sr =>
    obtain ⟨settings, rest⟩ := sr
    simp only [hs] at h
    refine ⟨settings, rest, rfl, ?_⟩
    split at h
    · cases h
    · rename_i st hloop
      exact main_loop_ok_fit env settings _ pids _ st hloop

theorem main_ok_eq (env : Env) (input : Input) (settings : Settings) (rest : List String)
    (r : RunResult) (ho : input.outfile_is_open = true)
    (hs : setup env.default_settings input.cin = some (settings, rest))
    (hr : main env input = Except.ok r) :
    r = { exit_code := 0
          outfile := [OutLine.title input.now, OutLine.rule, OutLine.blank]
            ++ ((getAllPids input.proc_dir).map
                (pid_lines env settings (scan_value settings input.value_line))).flatten
            ++ (if ((getAllPids input.proc_dir).any fun pid =>
                  !(pid_lines env settings (scan_value settings input.value_line) pid).isEmpty)
                then [] else [OutLine.no_match])
            ++ [OutLine.blank, OutLine.rule, OutLine.finished]
          calls := (if wants_value settings.compare_type then [Event.value_prompt] else [])
            ++ ((getAllPids input.proc_dir).map
                (pid_calls env settings (scan_value settings input.value_line))).flatten } := by
  have hm : main env input = main_with_pids env input (getAllPids input.proc_dir) := by
    simp [main, ho]
  rw [hm] at hr
  obtain ⟨settings1, rest1, hs1, hb⟩ := main_with_pids_ok_inv env input _ r hr
  rw [hs] at hs1
  injection hs1 with hs1
  injection hs1 with h1 h2
  subst h1
  rw [main_with_pids_eq env input _ settings rest hs hb] at hr
  injection hr with hr
  exact hr.symm

theorem mem_access_calls (mem : Memory) (pid : Int) (adr : Match) (e : Event)
    (h : e ∈ access_calls mem pid adr) :
    e = Event.seek pid adr.address ∨ e = Event.read pid adr.address bytes_to_read := by
  unfold access_calls at h
  split at h <;> simp at h <;> tauto

theorem mem_pid_calls (env : Env) (settings : Settings) (scan_value_str : String) (pid : Int)
    (e : Event) (h : e ∈ pid_calls env settings scan_value_str pid) :
    e = Event.construct pid ∨
    e = Event.find pid settings (find_argument settings.compare_type scan_value_str) ∨
    (∃ address, e = Event.seek pid address) ∨
    (∃ address, e = Event.read pid address bytes_to_read) := by
  unfold pid_calls at h
  split at h
  · simp at h; exact Or.inl h
  · simp only [List.mem_append, List.mem_cons, List.mem_singleton, List.not_mem_nil,
      or_false] at h
    rcases h with (h | h) | h
    · exact Or.inl h
    · exact Or.inr (Or.inl h)
    · split at h
      · simp at h
      · rename_i results _
        rw [List.mem_flatten] at h
        obtain ⟨l, hl, hel⟩ := h
        rw [List.mem_map] at hl
        obtain ⟨adr, _, hadr⟩ := hl
        subst hadr
        rcases mem_access_calls _ _ _ _ hel with h1 | h1
        · exact Or.inr (Or.inr (Or.inl ⟨_, h1⟩))
        · exact Or.inr (Or.inr (Or.inr ⟨_, h1⟩))

theorem construct_mem_pid_calls (env : Env) (settings : Settings) (scan_value_str : String)
    (pid : Int) : Event.construct pid ∈ pid_calls env settings scan_value_str pid := by
  unfold pid_calls
  split <;> simp

theorem find_mem_pid_calls (env : Env) (settings : Settings) (scan_value_str : String)
    (pid : Int) (h : env.construct pid = none) :
    Event.find pid settings (find_argument settings.compare_type scan_value_str) ∈
      pid_calls env settings scan_value_str pid := by
  unfold pid_calls
  rw [h]
  simp

theorem pid_calls_of_failure (env : Env) (settings : Settings) (scan_value_str : String)
    (pid : Int) (h : scan_results env settings scan_value_str pid = none) (e : Event)
    (he : e ∈ pid_calls env settings scan_value_str pid) :
    e = Event.construct pid ∨
    e = Event.find pid settings (find_argument settings.compare_type scan_value_str) := by
  unfold pid_calls at he
  rw [h] at he
  split at he
  · simp at he; exact Or.inl he
  · simp at he; exact he

theorem mem_flatten_map {α : Type} (f : Int → List α) (pids : List Int) (x : α) :
    x ∈ (pids.map f).flatten ↔ ∃ pid ∈ pids, x ∈ f pid := by
  simp only [List.mem_flatten, List.mem_map]
  constructor
  · rintro ⟨l, ⟨pid, hp, rfl⟩, hx⟩
    exact ⟨pid, hp, hx⟩
  · rintro ⟨pid, hp, hx⟩
    exact ⟨_, ⟨pid, hp, rfl⟩, hx⟩

theorem set_value_type_keeps (settings : Settings) (cin : List String) :
    ∀ settings1 rest, set_value_type settings cin = some (settings1, rest) →
      settings1.alignment = settings.alignment ∧
      settings1.compare_type = settings.compare_type := by
  induction cin with
  | nil => intro settings1 rest h; simp [set_value_type] at h
  | cons s tail ih =>
    intro settings1 rest h
    rw [set_value_type] at h
    simp only [GetInputLower, GetInput] at h
    split at h
    · injection h with h; injection h with h1 _; subst h1; exact ⟨rfl, rfl⟩
    · split at h
      · injection h with h; injection h with h1 _; subst h1; exact ⟨rfl, rfl⟩
      · exact ih _ _ h

theorem set_compare_type_keeps (settings : Settings) (cin : List String) :
    ∀ settings1 rest, set_compare_type settings cin = some (settings1, rest) →
      settings1.alignment = settings.alignment ∧
      settings1.value_type = settings.value_type := by
  induction cin with
  | nil => intro settings1 rest h; simp [set_compare_type] at h
  | cons s tail ih =>
    intro settings1 rest h
    rw [set_compare_type] at h
    simp only [GetInputLower, GetInput] at h
    split at h
    · injection h with h; injection h with h1 _; subst h1; exact ⟨rfl, rfl⟩
    · split at h
      · injection h with h; injection h with h1 _; subst h1; exact ⟨rfl, rfl⟩
      · exact ih _ _ h

theorem setup_alignment (default_settings : Settings) (cin : List String) (settings : Settings)
    (rest : List String) (h : setup default_settings cin = some (settings, rest)) :
    settings.alignment = (GetInputInt cin).1 := by
  simp only [setup] at h
  cases h1 : set_value_type (set_alignment default_settings cin).1
      (set_alignment default_settings cin).2 with
  | none => simp [h1] at h
  | some r1 =>
    simp only [h1] at h
    have h2 := set_compare_type_keeps _ _ _ _ h
    have h3 := set_value_type_keeps _ _ r1.1 r1.2 h1
    rw [h2.1, h3.1]
    rfl

theorem wants_value_eq_is_absolute (compare_type : CompareType) :
    wants_value compare_type = is_absolute compare_type := by
  cases compare_type <;> rfl

theorem find_argument_scan_value (settings : Settings) (value_line : String) :
    find_argument settings.compare_type (scan_value settings value_line) =
      if is_absolute settings.compare_type then value_line else "" := by
  unfold find_argument scan_value
  cases settings.compare_type <;> simp [wants_value, is_absolute]

theorem GetInputInt_fst (cin : List String) :
    (GetInputInt cin).1 =
      match stoi (GetInput cin).1 with
      | StoiResult.value v => v
      | _ => 0 := by
  simp only [GetInputInt]
  generalize stoi (GetInput cin).1 = x
  cases x <;> rfl

/-- C1 does not hold: in the run `zero_alignment_input`, where `abc` is entered at the
alignment prompt, `main` ends normally and has called `find` for process 1 on a scanner
whose settings have alignment 0. -/
theorem alignment_zero_reaches_find :
    main sample_env zero_alignment_input = Except.ok zero_alignment_run ∧
    ∃ (settings : Settings) (target_text : String),
      Event.find 1 settings target_text ∈ zero_alignment_run.calls ∧ settings.alignment < 1 :=
  ⟨rfl, { alignment := 0, value_type := ValueType.Int32, compare_type := CompareType.Unknown },
    "", by decide, by decide⟩

/-- C1, amended: in every run of `main` that ends normally with `res.txt` open, the
settings `main` passes on carry as alignment the value `GetInputInt` returned for the
token at the alignment prompt, which is the `int` that `std::stoi` converts the token to,
and `0` when `std::stoi` throws; it is at least 1 exactly when the token converts to an
`int` that is at least 1. `main` does not check it: every call of `find` in the run is
made with settings of that alignment, and `find` is called with these settings for every
process of the listing whose scanner could be constructed. -/
theorem find_receives_entered_alignment (env : Env) (input : Input) (settings : Settings)
    (rest : List String) (r : RunResult) (ho : input.outfile_is_open = true)
    (hs : setup env.default_settings input.cin = some (settings, rest))
    (hr : main env input = Except.ok r) :
    settings.alignment = (GetInputInt input.cin).1 ∧
    (settings.alignment =
      match stoi (GetInput input.cin).1 with
      | StoiResult.value v => v
      | _ => 0) ∧
    (1 ≤ settings.alignment ↔
      ∃ v, stoi (GetInput input.cin).1 = StoiResult.value v ∧ 1 ≤ v) ∧
    (∀ pid s t, Event.find pid s t ∈ r.calls →
      s = settings ∧ s.alignment = (GetInputInt input.cin).1) ∧
    (∀ pid ∈ getAllPids input.proc_dir, env.construct pid = none →
      ∃ t, Event.find pid settings t ∈ r.calls) := by
  have ha := setup_alignment _ _ _ _ hs
  have hreq := main_ok_eq env input settings rest r ho hs hr
  subst hreq
  refine ⟨ha, ?_, ?_, ?_, ?_⟩
  · rw [ha, GetInputInt_fst]
  · rw [ha, GetInputInt_fst]
    generalize stoi (GetInput input.cin).1 = x
    cases x <;> simp
  · intro pid s t hmem
    simp only [List.mem_append] at hmem
    rcases hmem with hmem | hmem
    · split at hmem <;> simp at hmem
    · obtain ⟨q, _, hq⟩ := (mem_flatten_map _ _ _).mp hmem
      rcases mem_pid_calls _ _ _ _ _ hq with h | h | ⟨a, h⟩ | ⟨a, h⟩
      · cases h
      · injection h with _ h2 _
        exact ⟨h2, h2 ▸ ha⟩
      · cases h
      · cases h
  · intro pid hpid hc
    refine ⟨find_argument settings.compare_type (scan_value settings input.value_line), ?_⟩
    simp only [List.mem_append]
    exact Or.inr ((mem_flatten_map _ _ _).mpr ⟨pid, hpid, find_mem_pid_calls env settings _ pid hc⟩)

/-- The amended statement C1 for the run `zero_alignment_input`: the alignment is 0 and
`find` is called for process 1 with it. -/
theorem find_receives_entered_alignment_witness :
    (GetInputInt zero_alignment_input.cin).1 = 0 ∧
    ∃ t, Event.find 1
      { alignment := 0, value_type := ValueType.Int32, compare_type := CompareType.Unknown } t
        ∈ zero_alignment_run.calls := by
  obtain ⟨_, _, _, _, hfind⟩ :=
    find_receives_entered_alignment sample_env zero_alignment_input
      { alignment := 0, value_type := ValueType.Int32, compare_type := CompareType.Unknown } []
      zero_alignment_run rfl (by decide) rfl
  exact ⟨by decide, hfind 1 (by decide) rfl⟩

/-- C3: for every compare type, the argument `main` computes for `find` is the line
entered as the value when the compare type is `Equal`, `Less` or `Greater`, and the empty
string for `Unknown`, `Increased`, `Decreased`, `Unchanged` and `Changed`; and the test
that guards the prompt for the value holds exactly for `Equal`, `Less` and `Greater`. In
every run of `main` that ends normally with `res.txt` open, every call of `find` carries
that argument, `find` is called with it for every process whose scanner could be
constructed, and the value is prompted for exactly when the compare type is `Equal`,
`Less` or `Greater`. -/
theorem find_receives_value_iff_absolute :
    (∀ (compare_type : CompareType) (value_line : String),
      find_argument compare_type (if wants_value compare_type then value_line else "") =
        if compare_type = CompareType.Equal ∨ compare_type = CompareType.Less ∨
            compare_type = CompareType.Greater then value_line else "") ∧
    (∀ compare_type : CompareType,
      wants_value compare_type = true ↔
        compare_type = CompareType.Equal ∨ compare_type = CompareType.Less ∨
          compare_type = CompareType.Greater) ∧
    ∀ (env : Env) (input : Input) (settings : Settings) (rest : List String) (r : RunResult),
      input.outfile_is_open = true →
      setup env.default_settings input.cin = some (settings, rest) →
      main env input = Except.ok r →
      (∀ pid s t, Event.find pid s t ∈ r.calls →
        t = if is_absolute settings.compare_type then input.value_line else "") ∧
      (∀ pid ∈ getAllPids input.proc_dir, env.construct pid = none →
        Event.find pid settings
          (if is_absolute settings.compare_type then input.value_line else "") ∈ r.calls) ∧
      (Event.value_prompt ∈ r.calls ↔ is_absolute settings.compare_type = true) := by
  refine ⟨?_, ?_, ?_⟩
  · intro compare_type value_line
    cases compare_type <;> simp [find_argument, wants_value]
  · intro compare_type
    cases compare_type <;> simp [wants_value]
  · intro env input settings rest r ho hs hr
    have hreq := main_ok_eq env input settings rest r ho hs hr
    subst hreq
    refine ⟨?_, ?_, ?_⟩
    · intro pid s t hmem
      simp only [List.mem_append] at hmem
      rcases hmem with hmem | hmem
      · split at hmem <;> simp at hmem
      · obtain ⟨q, _, hq⟩ := (mem_flatten_map _ _ _).mp hmem
        rcases mem_pid_calls _ _ _ _ _ hq with h | h | ⟨a, h⟩ | ⟨a, h⟩
        · cases h
        · injection h with _ _ h3
          rw [h3, find_argument_scan_value]
        · cases h
        · cases h
    · intro pid hpid hc
      simp only [List.mem_append]
      refine Or.inr ((mem_flatten_map _ _ _).mpr ⟨pid, hpid, ?_⟩)
      rw [← find_argument_scan_value]
      exact find_mem_pid_calls env settings _ pid hc
    · rw [← wants_value_eq_is_absolute]
      simp only [List.mem_append]
      constructor
      · rintro (h | h)
        · split at h
          · assumption
          · simp at h
        · obtain ⟨q, _, hq⟩ := (mem_flatten_map _ _ _).mp h
          rcases mem_pid_calls _ _ _ _ _ hq with h | h | ⟨a, h⟩ | ⟨a, h⟩ <;> cases h
      · intro h
        exact Or.inl (by simp [h])

/-- The statement C3 for the run `sample_input`, in which `equal` and the value `100` are
entered: the value is prompted for and `find` is called with `100` for process 1. -/
theorem find_receives_value_iff_absolute_witness :
    main sample_env sample_input = Except.ok sample_run ∧
    Event.find 1 sample_settings "100" ∈ sample_run.calls ∧
    Event.value_prompt ∈ sample_run.calls := by
  obtain ⟨_, hfind, hprompt⟩ :=
    find_receives_value_iff_absolute.2.2 sample_env sample_input sample_settings []
      sample_run rfl (by decide) rfl
  exact ⟨rfl, hfind 1 (by decide) rfl, hprompt.mpr (by decide)⟩

theorem scan_results_of_failure (env : Env) (settings : Settings) (scan_value_str : String)
    (pid : Int)
    (h : (∃ e, env.construct pid = some e) ∨
      ∃ e, env.find pid settings (find_argument settings.compare_type scan_value_str) =
        Except.error e) :
    scan_results env settings scan_value_str pid = none := by
  unfold scan_results
  rcases h with ⟨e, he⟩ | ⟨e, he⟩
  · rw [he]
  · rw [he]
    cases env.construct pid <;> rfl

theorem pid_lines_of_failure (env : Env) (settings : Settings) (scan_value_str : String)
    (pid : Int) (h : scan_results env settings scan_value_str pid = none) :
    pid_lines env settings scan_value_str pid = [] := by
  unfold pid_lines
  rw [h]

theorem result_addresses_eq_nil (out : List OutLine) :
    result_addresses out = [] ↔ ∀ l ∈ out, l.result_address = none := by
  unfold result_addresses
  exact List.filterMap_eq_nil_iff

theorem result_addresses_pid_lines (env : Env) (settings : Settings) (scan_value_str : String)
    (pid : Int) :
    result_addresses (pid_lines env settings scan_value_str pid) = [] ↔
      (pid_lines env settings scan_value_str pid).isEmpty = true := by
  unfold pid_lines
  cases scan_results env settings scan_value_str pid with
  | none => simp [result_addresses]
  | some results =>
    simp only [result_addresses_pid_block, pid_block_isEmpty]
    simp [List.isEmpty_iff]

theorem not_mem_pid_lines (env : Env) (settings : Settings) (scan_value_str : String)
    (pid : Int) (l : OutLine) (h : l ∈ pid_lines env settings scan_value_str pid) :
    l ≠ OutLine.no_match := by
  unfold pid_lines at h
  cases hsr : scan_results env settings scan_value_str pid with
  | none => simp [hsr] at h
  | some results =>
    simp only [hsr] at h
    unfold pid_block at h
    split at h
    · simp at h
    · simp only [List.cons_append, List.mem_cons, List.mem_append, List.mem_map,
        List.mem_singleton, List.not_mem_nil, or_false] at h
      rcases h with h | ⟨adr, _, h⟩ | h
      · subst h; simp [header_line]
      · subst h; simp [result_line]
      · subst h; simp

/-- C2: let `find` be the one of the specification, and let the prompts yield settings
with value type `String` and compare type `Less` or `Greater`. Then the run ends
normally; every call of `find` in it is made with these settings and fails with
`UnsupportedComparisonError`; no call of the run is a seek or a read, for any process; and
no result line is written. -/
theorem string_less_greater_never_reads (env : Env) (input : Input)
    (parses : ValueType → String → Bool) (sweep : Int → Settings → String → List Match)
    (settings : Settings) (rest : List String)
    (hfind : env.find = spec_find parses sweep)
    (hs : setup env.default_settings input.cin = some (settings, rest))
    (hv : settings.value_type = ValueType.String)
    (hc : settings.compare_type = CompareType.Less ∨
      settings.compare_type = CompareType.Greater) :
    ∃ r, main env input = Except.ok r ∧
      (∀ pid s t, Event.find pid s t ∈ r.calls →
        s = settings ∧ env.find pid s t = Except.error ScanError.UnsupportedComparisonError) ∧
      (∀ e ∈ r.calls, (∀ pid address, e ≠ Event.seek pid address) ∧
        (∀ pid address n, e ≠ Event.read pid address n)) ∧
      sought r.calls = [] ∧ read_at r.calls = [] ∧ result_addresses r.outfile = [] := by
  have hfail : ∀ pid text,
      env.find pid settings text = Except.error ScanError.UnsupportedComparisonError := by
    intro pid text
    rw [hfind]
    simp [spec_find, hv, hc]
  have hnone : ∀ pid, scan_results env settings (scan_value settings input.value_line) pid = none :=
    fun pid => scan_results_of_failure env settings _ pid (Or.inr ⟨_, hfail pid _⟩)
  cases ho : input.outfile_is_open with
  | false =>
    refine ⟨{ exit_code := 1, outfile := [], calls := [] }, by simp [main, ho], ?_, ?_, rfl, rfl, rfl⟩
    · intro pid s t h; simp at h
    · intro e h; simp at h
  | true =>
    have hb : reads_within_request env settings (scan_value settings input.value_line)
        (getAllPids input.proc_dir) := by
      intro pid _ results hr
      rw [hnone pid] at hr
      cases hr
    have hm := main_eq env input settings rest ho hs hb
    have hcalls : ∀ e ∈ (if wants_value settings.compare_type then [Event.value_prompt] else [])
        ++ ((getAllPids input.proc_dir).map
            (pid_calls env settings (scan_value settings input.value_line))).flatten,
        e = Event.value_prompt ∨ ∃ pid, e = Event.construct pid ∨
          e = Event.find pid settings
            (find_argument settings.compare_type (scan_value settings input.value_line)) := by
      intro e he
      simp only [List.mem_append] at he
      rcases he with he | he
      · split at he
        · simp at he; exact Or.inl he
        · simp at he
      · obtain ⟨q, _, hq⟩ := (mem_flatten_map _ _ _).mp he
        exact Or.inr ⟨q, pid_calls_of_failure env settings _ q (hnone q) e hq⟩
    refine ⟨_, hm.1.trans hm.2, ?_, ?_, ?_, ?_, ?_⟩
    · intro pid s t h
      rcases hcalls _ h with h1 | ⟨q, h1 | h1⟩
      · cases h1
      · cases h1
      · injection h1 with _ h2 _
        subst h2
        exact ⟨rfl, hfail pid t⟩
    · intro e h
      rcases hcalls _ h with h1 | ⟨q, h1 | h1⟩ <;> subst h1 <;> simp
    · unfold sought
      rw [List.filterMap_eq_nil_iff]
      intro e h
      rcases hcalls _ h with h1 | ⟨q, h1 | h1⟩ <;> subst h1 <;> rfl
    · unfold read_at
      rw [List.filterMap_eq_nil_iff]
      intro e h
      rcases hcalls _ h with h1 | ⟨q, h1 | h1⟩ <;> subst h1 <;> rfl
    · rw [result_addresses_eq_nil]
      intro l hl
      simp only [List.mem_append, List.mem_cons, List.mem_singleton, List.not_mem_nil,
        or_false] at hl
      rcases hl with ((hl | hl) | hl) | hl
      · rcases hl with hl | hl | hl <;> subst hl <;> rfl
      · obtain ⟨q, _, hq⟩ := (mem_flatten_map _ _ _).mp hl
        rw [pid_lines_of_failure env settings _ q (hnone q)] at hq
        simp at hq
      · split at hl
        · simp at hl
        · simp at hl; subst hl; rfl
      · rcases hl with hl | hl | hl <;> subst hl <;> rfl

/-- The statement C2 for the run `string_less_input` with the scanner of the
specification: the run ends normally without a seek or a read. -/
theorem string_less_greater_never_reads_witness :
    ∃ r, main spec_env string_less_input = Except.ok r ∧
      sought r.calls = [] ∧ read_at r.calls = [] ∧ result_addresses r.outfile = [] := by
  obtain ⟨r, hr, _, _, h1, h2, h3⟩ :=
    string_less_greater_never_reads spec_env string_less_input (fun _ _ => true)
      (fun _ _ _ => sample_results)
      { alignment := 1, value_type := ValueType.String, compare_type := CompareType.Less } []
      rfl (by decide) rfl (Or.inl rfl)
  exact ⟨r, hr, h1, h2, h3⟩

theorem reads_within_request_skip (env : Env) (settings : Settings) (scan_value_str : String)
    (l1 : List Int) (p : Int) (l2 : List Int)
    (hnone : scan_results env settings scan_value_str p = none) :
    reads_within_request env settings scan_value_str (l1 ++ p :: l2) ↔
      reads_within_request env settings scan_value_str (l1 ++ l2) := by
  constructor
  · intro hb q hq
    refine hb q ?_
    rcases List.mem_append.mp hq with h | h
    · exact List.mem_append_left _ h
    · exact List.mem_append_right _ (List.mem_cons_of_mem _ h)
  · intro hb q hq results hres
    rcases List.mem_append.mp hq with h | h
    · exact hb q (List.mem_append_left _ h) results hres
    · rcases List.mem_cons.mp h with heq | h2
      · subst heq
        rw [hnone] at hres
        cases hres
      · exact hb q (List.mem_append_right _ h2) results hres

/-- C4: let the prompts yield `settings` and let the constructor or `find` fail for the
pid `p`. Then the loop body for `p` ends normally and leaves `res.txt` and the flag
`any_match_found_in_run` as they were. And for every list of pids around `p`: when the run
over the list with `p` ends normally, so does the run over the list without `p`, and
conversely, and both leave the same `res.txt`; in the run with `p` a scanner is
constructed for every pid of the list, those after `p` included, and `find` is called for
each pid after `p` whose scanner could be constructed. -/
theorem failed_scan_leaves_no_trace (env : Env) (input : Input) (l1 : List Int) (p : Int)
    (l2 : List Int) (settings : Settings) (rest : List String)
    (hs : setup env.default_settings input.cin = some (settings, rest))
    (hfail : (∃ e, env.construct p = some e) ∨
      ∃ e, env.find p settings
        (find_argument settings.compare_type (scan_value settings input.value_line)) =
          Except.error e) :
    (∀ st : MainState, ∃ st1,
      scan_pid env settings (scan_value settings input.value_line) p st = Except.ok st1 ∧
      st1.outfile = st.outfile ∧ st1.any_match_found_in_run = st.any_match_found_in_run) ∧
    (∀ r1, main_with_pids env input (l1 ++ p :: l2) = Except.ok r1 →
      ∃ r2, main_with_pids env input (l1 ++ l2) = Except.ok r2 ∧
        r2.outfile = r1.outfile ∧
        (∀ q ∈ l1 ++ p :: l2, Event.construct q ∈ r1.calls) ∧
        (∀ q ∈ l2, env.construct q = none → ∃ t, Event.find q settings t ∈ r1.calls)) ∧
    (∀ r2, main_with_pids env input (l1 ++ l2) = Except.ok r2 →
      ∃ r1, main_with_pids env input (l1 ++ p :: l2) = Except.ok r1 ∧
        r1.outfile = r2.outfile) := by
  have hnone := scan_results_of_failure env settings _ p hfail
  have hlines := pid_lines_of_failure env settings _ p hnone
  have hskip := reads_within_request_skip env settings _ l1 p l2 hnone
  have hsettings : ∀ pids r, main_with_pids env input pids = Except.ok r →
      reads_within_request env settings (scan_value settings input.value_line) pids := by
    intro pids r h
    obtain ⟨settings1, rest1, hs1, hb⟩ := main_with_pids_ok_inv env input pids r h
    rw [hs] at hs1
    injection hs1 with hs1
    injection hs1 with h1 _
    subst h1
    exact hb
  refine ⟨?_, ?_, ?_⟩
  · intro st
    have hb1 : ∀ results,
        scan_results env settings (scan_value settings input.value_line) p = some results →
        reads_fit (env.memory p) results := by
      intro results hres
      rw [hnone] at hres
      cases hres
    refine ⟨_, scan_pid_eq env settings _ p st hb1, ?_, ?_⟩
    · simp [hlines]
    · simp [hlines]
  · intro r1 h1
    have hb := hsettings _ _ h1
    rw [main_with_pids_eq env input _ settings rest hs hb] at h1
    injection h1 with h1
    subst h1
    refine ⟨_, main_with_pids_eq env input _ settings rest hs (hskip.mp hb), ?_, ?_, ?_⟩
    · simp [hlines]
    · intro q hq
      simp only [List.mem_append]
      exact Or.inr ((mem_flatten_map _ _ _).mpr ⟨q, hq, construct_mem_pid_calls env settings _ q⟩)
    · intro q hq hc
      refine ⟨find_argument settings.compare_type (scan_value settings input.value_line), ?_⟩
      simp only [List.mem_append]
      exact Or.inr ((mem_flatten_map _ _ _).mpr
        ⟨q, List.mem_append_right _ (List.mem_cons_of_mem _ hq),
          find_mem_pid_calls env settings _ q hc⟩)
  · intro r2 h2
    have hb := hsettings _ _ h2
    rw [main_with_pids_eq env input _ settings rest hs hb] at h2
    injection h2 with h2
    subst h2
    refine ⟨_, main_with_pids_eq env input _ settings rest hs (hskip.mpr hb), ?_⟩
    simp [hlines]

/-- The statement C4 for `sample_env`, where `find` fails for pid 2, and the pid lists
`1, 2, 3, 5` and `1, 3, 5`: the run over the first list is `sample_run`, the run over the
second ends normally with the same `res.txt`, and a scanner is constructed for pid 5 in
the run with pid 2. -/
theorem failed_scan_leaves_no_trace_witness :
    main_with_pids sample_env sample_input [1, 2, 3, 5] = Except.ok sample_run ∧
    (∃ r2, main_with_pids sample_env sample_input [1, 3, 5] = Except.ok r2 ∧
      r2.outfile = sample_run.outfile) ∧
    Event.construct 5 ∈ sample_run.calls := by
  obtain ⟨r2, h2, h3, h4, _⟩ :=
    (failed_scan_leaves_no_trace sample_env sample_input [1] 2 [3, 5] sample_settings []
      (by decide) (Or.inr ⟨ScanError.ParseError, rfl⟩)).2.1 sample_run rfl
  exact ⟨rfl, ⟨r2, h2, h3⟩, h4 5 (by decide)⟩

/-- C6: in every run of `main` that ends normally with `res.txt` open, `res.txt` holds
the line `No matching content found in this scan run.` exactly when it holds no result
line. When the reads for the readable matches report no more than the 64 bytes asked for,
`print_results` returns normally, and it returns `true` exactly when it added at least
one result line. On an empty result set `print_results` returns normally, whatever the
memory does, with the stream as it was and the return value `false`. -/
theorem no_match_line_iff_no_result_line :
    (∀ (env : Env) (input : Input) (r : RunResult),
      input.outfile_is_open = true →
      main env input = Except.ok r →
      (OutLine.no_match ∈ r.outfile ↔ result_addresses r.outfile = [])) ∧
    (∀ (mem : Memory) (scanner : Scanner) (count_limit : Int) (out_stream : List OutLine)
        (pid : Int) (name : String),
      reads_fit mem scanner.results →
      ∃ o added, print_results mem scanner count_limit out_stream pid name = Except.ok o ∧
        o.out_stream = out_stream ++ added ∧
        (o.returned = true ↔ result_addresses added ≠ [])) ∧
    (∀ (mem : Memory) (scanner : Scanner) (count_limit : Int) (out_stream : List OutLine)
        (pid : Int) (name : String),
      scanner.results = [] →
      print_results mem scanner count_limit out_stream pid name =
        Except.ok { out_stream := out_stream, returned := false, results_written_count := 0,
                    calls := [] }) := by
  refine ⟨?_, ?_, ?_⟩
  · intro env input r ho hr
    have hm : main env input = main_with_pids env input (getAllPids input.proc_dir) := by
      simp [main, ho]
    obtain ⟨settings, rest, hs, _⟩ := main_with_pids_ok_inv env input _ r (hm ▸ hr)
    have hreq := main_ok_eq env input settings rest r ho hs hr
    subst hreq
    simp only
    have hany : ((getAllPids input.proc_dir).any fun pid =>
          !(pid_lines env settings (scan_value settings input.value_line) pid).isEmpty) = false ↔
        result_addresses (((getAllPids input.proc_dir).map
          (pid_lines env settings (scan_value settings input.value_line))).flatten) = [] := by
      rw [result_addresses_eq_nil]
      constructor
      · intro h l hl
        obtain ⟨q, hq, hlq⟩ := (mem_flatten_map _ _ _).mp hl
        have hq1 : (pid_lines env settings (scan_value settings input.value_line) q).isEmpty
            = true := by
          have := List.any_eq_false.mp h q hq
          simpa using this
        rw [List.isEmpty_iff.mp hq1] at hlq
        simp at hlq
      · intro h
        rw [List.any_eq_false]
        intro q hq
        have hq1 : result_addresses
            (pid_lines env settings (scan_value settings input.value_line) q) = [] := by
          rw [result_addresses_eq_nil]
          intro l hl
          exact h l ((mem_flatten_map _ _ _).mpr ⟨q, hq, hl⟩)
        simp [(result_addresses_pid_lines env settings _ q).mp hq1]
    cases hflag : ((getAllPids input.proc_dir).any fun pid =>
        !(pid_lines env settings (scan_value settings input.value_line) pid).isEmpty)
    · have hnil := hany.mp hflag
      simp only [result_addresses_append, hnil]
      simp [result_addresses, OutLine.result_address]
    · have hne : ¬ result_addresses (((getAllPids input.proc_dir).map
          (pid_lines env settings (scan_value settings input.value_line))).flatten) = [] := by
        intro h
        rw [← hany, hflag] at h
        cases h
      simp only [result_addresses_append, if_true, List.append_nil]
      constructor
      · intro hmem
        simp only [List.mem_append, List.mem_cons, List.mem_singleton, List.not_mem_nil,
          or_false] at hmem
        rcases hmem with (hmem | hmem) | hmem
        · rcases hmem with h | h | h <;> cases h
        · obtain ⟨q, _, hq⟩ := (mem_flatten_map _ _ _).mp hmem
          exact absurd rfl (not_mem_pid_lines env settings _ q _ hq)
        · rcases hmem with h | h | h <;> cases h
      · intro h
        simp only [List.append_eq_nil] at h
        exact absurd h.1.2 hne
  · intro mem scanner count_limit out_stream pid name hb
    obtain ⟨o, added, h1, h2, h3, h4, _⟩ :=
      print_results_added mem scanner count_limit out_stream pid name hb
    refine ⟨o, added, h1, h2, ?_⟩
    rw [h3, h4]
    have hpos : 1 ≤ (scanner.results.filter (readable mem)).length →
        1 ≤ lines_allowed count_limit (scanner.results.filter (readable mem)).length := by
      intro h
      unfold lines_allowed
      split
      · exact h
      · split
        · omega
        · omega
    cases hf : scanner.results.filter (readable mem) with
    | nil => simp
    | cons a l =>
      rw [hf] at hpos
      have := hpos (by simp)
      obtain ⟨k, hk⟩ : ∃ k, lines_allowed count_limit (a :: l).length = k + 1 :=
        ⟨lines_allowed count_limit (a :: l).length - 1, by omega⟩
      rw [hk]
      simp
  · intro mem scanner count_limit out_stream pid name hr
    simp [print_results, hr, print_results_loop]

/-- The statement C6 for the runs `sample_input` and `string_less_input`: in the first,
result lines are written and `res.txt` does not hold the line; in the second, with the
scanner of the specification, no result line is written and `res.txt` holds the line. -/
theorem no_match_line_iff_no_result_line_witness :
    (main sample_env sample_input = Except.ok sample_run ∧
      result_addresses sample_run.outfile = [0, 2, 8, 0, 2, 8] ∧
      OutLine.no_match ∉ sample_run.outfile) ∧
    (main spec_env string_less_input = Except.ok string_less_run ∧
      OutLine.no_match ∈ string_less_run.outfile) := by
  have h1 := no_match_line_iff_no_result_line.1 sample_env sample_input sample_run rfl rfl
  have h2 := no_match_line_iff_no_result_line.1 spec_env string_less_input string_less_run
    rfl rfl
  refine ⟨⟨rfl, by decide, ?_⟩, rfl, h2.mpr (by decide)⟩
  intro hmem
  have := h1.mp hmem
  revert this
  decide

end MemoryScanner
